import Mathlib

/-!
# Verification of the topology-runner DAG execution engine

A shallow embedding of `src/topology.ts` (the current engine: `getNodesReadyToRun`,
`getInputData`, `nodeEventHandler`, `_runTopology`, `initSnapshotData`,
`resetUncompletedNodes`, `getResumeSnapshot`, `resumeTopology`) together with
theorems settling the frozen claims about it.

JavaScript records (objects) are embedded as association lists `List (String × _)`
whose iteration order models the insertion order of JS object keys; JS objects have
unique keys, so theorems carry `Nodup` hypotheses on key lists where a claim needs
them.  JS values are embedded by the inductive `Value`, with `Value.vundef` playing
the role of `undefined`.  Timestamps are irrelevant to every claim and are modelled
by the constant `0`.

User-supplied node actions are embedded as pure, deterministic functions from the
materialized input to `Except JSError _` (a thrown exception is an `Except.error`).
The scheduler loop of `_runTopology` is embedded as a fuel-indexed deterministic
loop in which every dispatched action settles immediately, in dispatch order: one
legal schedule of the real engine.  Every snapshot mutation that changes a node's
status is recorded in a trace of `(node, old status, new status)` triples, and
every event emission is recorded in an event list, so that temporal claims about a
run's lifetime become statements about the trace.
-/

namespace TopologyRunner

/-- Embedded JavaScript values.  `vundef` is `undefined`. -/
inductive Value where
  | vundef : Value
  | vnull : Value
  | vbool (b : Bool) : Value
  | vnum (n : Int) : Value
  | vstr (s : String) : Value
  | varr (elems : List Value) : Value
  | vobj (fields : List (String × Value)) : Value

/-- Is this value JS `undefined`?  (Used for the `output !== undefined` check.) -/
def Value.isUndef : Value → Bool
  | Value.vundef => true
  | _ => false

/-- Reading a property of a JS object literal: the last definition of a key wins
(models object spread followed by explicit keys). -/
def objGet (k : String) (fields : List (String × Value)) : Option Value :=
  (fields.reverse.find? (fun kv => kv.1 == k)).map Prod.snd

/-- `NodeType` from `types.ts`. -/
inductive NodeType where
  | work | branching | suspension
deriving DecidableEq, Repr

/-- `NodeStatus` from `types.ts` (`Status` of a snapshot is the subset without
`pending` and `skipped`; the same inductive is used for both). -/
inductive NodeStatus where
  | pending | running | completed | suspended | errored | skipped
deriving DecidableEq, Repr

/-- `NodeData` from `types.ts`: one node's entry in the snapshot data.  Optional
JS fields are `Option`s; an absent field is `none`. -/
structure NodeData where
  type : NodeType
  deps : List String
  status : NodeStatus
  started : Option Nat := none
  finished : Option Nat := none
  input : Option (List Value) := none
  output : Option Value := none
  state : Option Value := none
  error : Option Value := none
  selected : Option String := none
  reason : Option String := none

/-- One node of the runtime DAG: `{deps, type}`. -/
structure DagNode where
  deps : List String
  type : NodeType

/-- `DAG = Record<string, {deps, type}>` as an association list in key insertion
order. -/
abbrev DAG := List (String × DagNode)

/-- `SnapshotData = Record<string, NodeData>`. -/
abbrev SnapshotData := List (String × NodeData)

/-- `Snapshot` from `types.ts`. -/
structure Snapshot where
  status : NodeStatus
  started : Nat
  finished : Option Nat
  data : SnapshotData

/-- JS record access `obj[k]`: the (unique) entry for key `k`, or `undefined`. -/
def lookupStr {α : Type} (k : String) : List (String × α) → Option α
  | [] => none
  | kv :: rest => if kv.1 = k then some kv.2 else lookupStr k rest

/-- The keys of a JS record, in iteration order. -/
def keysOf {α : Type} (l : List (String × α)) : List String := l.map Prod.fst

/-- `findKeys({status: s}, data)` from `util.ts`, specialized to the status
predicate the engine uses: keys whose entry has status `s`, in iteration order. -/
def findKeysStatus (s : NodeStatus) (data : SnapshotData) : List String :=
  (data.filter (fun kv => kv.2.status == s)).map Prod.fst

/-- `getDependents(node, dag)`: the nodes whose `deps` include `node`. -/
def getDependents (node : String) (dag : DAG) : List String :=
  (dag.filter (fun kv => kv.2.deps.contains node)).map Prod.fst

/-- `getNodesReadyToRun(dag, data)`: nodes whose entry is absent or `pending` and
whose deps have all completed (`_.difference(deps, completed).length === 0`). -/
def getNodesReadyToRun (dag : DAG) (data : SnapshotData) : List String :=
  let completed := findKeysStatus NodeStatus.completed data
  (dag.filter (fun kv =>
    (kv.2.deps.all (fun d => completed.contains d)) &&
    (match lookupStr kv.1 data with
     | none => true
     | some nd => nd.status == NodeStatus.pending))).map Prod.fst

/-- The body of `getInputData`'s loop over `deps`, in declared order.  For a
`work` dep the engine pushes `_.get([dep, 'output'], data)` (which is `undefined`
when absent); for a branching/suspension dep it spreads the dep's own `input`
when that is present and pushes nothing otherwise.  `none` models the `TypeError`
JS would throw on `dag[dep].type` when a dep is missing from the DAG. -/
def depsInput (dag : DAG) (data : SnapshotData) : List String → Option (List Value)
  | [] => some []
  | dep :: rest =>
    match lookupStr dep dag with
    | none => none
    | some depNode =>
      match depsInput dag data rest with
      | none => none
      | some tail =>
        match depNode.type with
        | NodeType.work =>
          some ((((lookupStr dep data).bind (fun nd => nd.output)).getD Value.vundef) :: tail)
        | _ =>
          match (lookupStr dep data).bind (fun nd => nd.input) with
          | some depInp => some (depInp ++ tail)
          | none => some tail

/-- `getInputData(dag, node, data)`: the cached `snapshotData[node].input` when
present (JS truthiness: an array, even empty, is truthy), else the walk over the
declared deps.  `none` models the `TypeError` JS would throw on `dag[node].deps`
when `node` (or, inside the walk, a dep) is missing from the DAG. -/
def getInputData (dag : DAG) (node : String) (data : SnapshotData) : Option (List Value) :=
  match (lookupStr node data).bind (fun nd => nd.input) with
  | some inp => some inp
  | none =>
    match lookupStr node dag with
    | none => none
    | some dn => depsInput dag data dn.deps

/-- `getNodesWithNoDeps(dag)`. -/
def getNodesWithNoDeps (dag : DAG) : List String :=
  (dag.filter (fun kv => kv.2.deps.isEmpty)).map Prod.fst

/-- `initSnapshotData(dag, data)`: one pending entry per DAG node, spreading the
DAG node's `deps` and `type`; nodes with no deps get `input = [data]` when an
initial `data` value was supplied (`data !== undefined`). -/
def initSnapshotData (dag : DAG) (data? : Option Value) : SnapshotData :=
  let noDepsNodes := getNodesWithNoDeps dag
  dag.map (fun kv =>
    (kv.1,
      { type := kv.2.type, deps := kv.2.deps, status := NodeStatus.pending,
        input := if data?.isSome && noDepsNodes.contains kv.1
                 then some [data?.getD Value.vundef] else none }))

/-- The per-entry transform of `resetUncompletedNodes` (the `_.mapValues`
callback): keep a `completed`/`skipped` entry as-is; reduce every other entry
to `_.pick(['input','state','deps','type'])` of it plus `status: 'pending'`. -/
def resetEntry (kv : String × NodeData) : String × NodeData :=
  (kv.1,
    if kv.2.status = NodeStatus.completed || kv.2.status = NodeStatus.skipped
    then kv.2
    else { type := kv.2.type, deps := kv.2.deps, status := NodeStatus.pending,
           input := kv.2.input, state := kv.2.state })

/-- `resetUncompletedNodes(data) = _.mapValues(fn, data)`. -/
def resetUncompletedNodes (data : SnapshotData) : SnapshotData :=
  data.map resetEntry

/-- `getResumeSnapshot(snapshot)` at the value level: the object literal spread
`{...snapshot, status, started, data}` followed by `delete snap.finished`.
`now` stands for `new Date()`. -/
def getResumeSnapshot (now : Nat) (snapshot : Snapshot) : Snapshot :=
  { status := NodeStatus.running, started := now, finished := none,
    data := resetUncompletedNodes snapshot.data }

/-- A thrown JS `Error` instance.  `message` and `stack` are its non-enumerable
own properties (ECMA-262 installs `message` with `enumerable: false`, and V8 does
the same for `stack`); `extra` holds the enumerable own properties a user may
have attached (`e.code = 42` and the like). -/
structure JSError where
  message : String
  stack : String
  extra : List (String × Value)

/-- Object spread `{...error}` of an `Error` copies only its enumerable own
properties, i.e. `extra`; the non-enumerable `message` and `stack` are skipped. -/
def spreadError (e : JSError) : List (String × Value) := e.extra

/-- The `errored` handler's captured record for a thrown `Error`:
`{ ...error, stack: error.stack }`. -/
def capturedError (e : JSError) : Value :=
  Value.vobj (spreadError e ++ [("stack", Value.vstr e.stack)])

/-- A `TopologyError` thrown by the engine itself.  Its V8 stack string begins
with `name + ': ' + message`; the model keeps exactly that prefix.  It has no
enumerable own properties. -/
def topologyError (msg : String) : JSError :=
  { message := msg, stack := "TopologyError: " ++ msg, extra := [] }

/-- The result of a branching selector: `branch(node, reason?)` or `none(reason?)`. -/
inductive BranchSel where
  | branch (node : String) (reason : Option String)
  | noneBranch (reason : Option String)

/-- A node's action, embedded as a pure deterministic function of its
materialized input.  `Except.error` models a thrown exception.  A suspension
node's action is optional (`run || noOp`). -/
inductive NodeAction where
  | work (run : List Value → Except JSError Value)
  | branching (run : List Value → Except JSError BranchSel)
  | suspension (run : Option (List Value → Except JSError Unit))

/-- The `type` tag a `NodeDef` carries (defaulting to `work`). -/
def NodeAction.nodeType : NodeAction → NodeType
  | NodeAction.work _ => NodeType.work
  | NodeAction.branching _ => NodeType.branching
  | NodeAction.suspension _ => NodeType.suspension

/-- One entry of the `Spec`: declared deps plus the typed action. -/
structure SpecNode where
  deps : List String
  action : NodeAction

/-- `Spec = Record<string, NodeDef>`. -/
abbrev Spec := List (String × SpecNode)

/-- `extractDag(spec)`: project every `NodeDef` to `{deps, type}`. -/
def extractDag (spec : Spec) : DAG :=
  spec.map (fun kv => (kv.1, { deps := kv.2.deps, type := kv.2.action.nodeType }))

/-- `extractDag(snap.data)` as used by `resumeTopology`: the snapshot data is
authoritative for the topology. -/
def extractDagOfData (data : SnapshotData) : DAG :=
  data.map (fun kv => (kv.1, { deps := kv.2.deps, type := kv.2.type }))

/-- `getMissingSpecNodes(spec, dag) = _.difference(keys(dag), keys(spec))`. -/
def getMissingSpecNodes (spec : Spec) (dag : DAG) : List String :=
  (keysOf dag).filter (fun n => !(keysOf spec).contains n)

/-! ## The running model

`_runTopology`'s `start` loop, embedded as a deterministic fuel-indexed
function.  Every mutation of a node's status goes through `writeNode`, which
records `(node, old status, new status)` in the trace and a `data` emission in
the event list, exactly as `nodeEventHandler` mutates the snapshot and emits. -/

/-- The kind of an emitted event. -/
inductive EvKind where
  | data | error | done
deriving DecidableEq, Repr

/-- The observable state of one run: the live snapshot, the trace of status
writes, and the emitted events. -/
structure RunState where
  snap : Snapshot
  trace : List (String × NodeStatus × NodeStatus)
  events : List EvKind

/-- Apply `f` to the entry for key `n` (JS mutation `data[n] = ...`). -/
def setNd (n : String) (f : NodeData → NodeData) (data : SnapshotData) : SnapshotData :=
  data.map (fun kv => if kv.1 = n then (kv.1, f kv.2) else kv)

/-- One snapshot mutation by `nodeEventHandler`: update node `n`'s entry with
`f`, record the status transition, emit `data`.  (JS would throw on an absent
entry; the engine only ever writes entries it created, so the absent case is
modelled as a no-op and shown unreachable.) -/
def writeNode (n : String) (f : NodeData → NodeData) (st : RunState) : RunState :=
  match lookupStr n st.snap.data with
  | none => st
  | some nd =>
    { snap := { st.snap with data := setNd n f st.snap.data },
      trace := st.trace ++ [(n, nd.status, (f nd).status)],
      events := st.events ++ [EvKind.data] }

/-- The `running(data)` handler. -/
def runningFn (inputData : List Value) (nd : NodeData) : NodeData :=
  { nd with started := some 0, input := some inputData, status := NodeStatus.running }

/-- The `completed(output?)` handler; `output` is set only when the resolved
value is not `undefined`. -/
def completedFn (output : Value) (nd : NodeData) : NodeData :=
  { nd with output := if output.isUndef then nd.output else some output,
            status := NodeStatus.completed, finished := some 0 }

/-- The `branched(selected, reason?)` handler; `reason` is stamped only when
truthy (a present, non-empty string). -/
def branchedFn (selected : String) (reason : Option String) (nd : NodeData) : NodeData :=
  { nd with status := NodeStatus.completed, selected := some selected,
            reason := match reason with
                      | some r => if r = "" then nd.reason else some r
                      | none => nd.reason,
            finished := some 0 }

/-- The `skipped()` handler. -/
def skippedFn (nd : NodeData) : NodeData :=
  { nd with status := NodeStatus.skipped, finished := some 0 }

/-- The `suspended()` handler. -/
def suspendedFn (nd : NodeData) : NodeData :=
  { nd with status := NodeStatus.suspended, finished := some 0 }

/-- The `errored(error)` handler; `err` is the already-captured error value. -/
def erroredFn (err : Value) (nd : NodeData) : NodeData :=
  { nd with status := NodeStatus.errored, finished := some 0, error := some err }

/-- `run || noOp` for a suspension node. -/
def runSuspensionAction (run : Option (List Value → Except JSError Unit))
    (inputData : List Value) : Except JSError Unit :=
  match run with
  | some f => f inputData
  | none => Except.ok ()

/-- `nodes.forEach((node) => eventHandler(node).h())`: apply one handler to each
node of `L` in order. -/
def writeAll (f : NodeData → NodeData) (L : List String) (st : RunState) : RunState :=
  L.foldl (fun acc m => writeNode m f acc) st

/-- Dispatch one ready node and let its action settle: the body of the
`for (const node of readyToRunNodes)` loop together with the settlement of the
promise it registers.  Mirrors `_runTopology` lines 272-338: mark running with
the materialized input, then per node type translate the action's result into
snapshot transitions; the `Branch not found` `TopologyError` is thrown after
`events.branched` and lands in `.catch(events.errored)`.  The `.getD []` on the
materialized input is never exercised: a ready node and its completed deps are
all present in the DAG, so `getInputData` is `some` there. -/
def runNode (spec : Spec) (dag : DAG) (n : String) (st : RunState) : RunState :=
  match lookupStr n spec with
  | none => st
  | some sn =>
    let inputData := (getInputData dag n st.snap.data).getD []
    let st1 := writeNode n (runningFn inputData) st
    let dependents := getDependents n dag
    match sn.action with
    | NodeAction.work run =>
      match run inputData with
      | Except.ok out => writeNode n (completedFn out) st1
      | Except.error e => writeNode n (erroredFn (capturedError e)) st1
    | NodeAction.branching run =>
      match run inputData with
      | Except.error e => writeNode n (erroredFn (capturedError e)) st1
      | Except.ok (BranchSel.noneBranch reason) =>
        let st2 := writeNode n (branchedFn "Symbol(NONE)" reason) st1
        writeAll skippedFn dependents st2
      | Except.ok (BranchSel.branch name reason) =>
        let st2 := writeNode n (branchedFn name reason) st1
        if dependents.contains name then
          writeAll skippedFn (dependents.filter (fun m => m != name)) st2
        else
          writeNode n (erroredFn (capturedError
            (topologyError ("Branch not found: " ++ name)))) st2
    | NodeAction.suspension run =>
      match runSuspensionAction run inputData with
      | Except.ok _ =>
        let st2 := writeNode n (completedFn Value.vundef) st1
        writeAll suspendedFn dependents st2
      | Except.error e => writeNode n (erroredFn (capturedError e)) st1

/-- Terminal detection, `_runTopology` lines 236-269: choose the terminal
status, suspend or skip the still-pending nodes accordingly, stamp `finished`,
emit `error` or `done`.  (The subsequent `TopologyError` rejection of `start()`
on errors does not touch the snapshot.) -/
def finalize (st : RunState) : RunState :=
  let errored := findKeysStatus NodeStatus.errored st.snap.data
  let suspendedKeys := findKeysStatus NodeStatus.suspended st.snap.data
  let hasErrors := !errored.isEmpty
  let status : NodeStatus :=
    if hasErrors then NodeStatus.errored
    else if !suspendedKeys.isEmpty then NodeStatus.suspended
    else NodeStatus.completed
  let st1 : RunState := { st with snap := { st.snap with status := status } }
  let pending := findKeysStatus NodeStatus.pending st1.snap.data
  let st2 :=
    if status = NodeStatus.suspended then
      writeAll suspendedFn pending st1
    else if status = NodeStatus.completed then
      writeAll skippedFn pending st1
    else st1
  { st2 with snap := { st2.snap with finished := some 0 },
             events := st2.events ++ [if hasErrors then EvKind.error else EvKind.done] }

/-- The readiness computation of one loop iteration, lines 231-233: after
`stop()` has aborted the run the ready set is `[]` unconditionally. -/
def readyNodes (aborted : Bool) (dag : DAG) (data : SnapshotData) : List String :=
  if aborted then [] else getNodesReadyToRun dag data

/-- Dispatch every node of the ready batch, in order. -/
def runBatch (spec : Spec) (dag : DAG) (batch : List String) (st : RunState) : RunState :=
  batch.foldl (fun acc m => runNode spec dag m acc) st

/-- The `while (true)` scheduler loop.  In this deterministic model every
dispatched action settles before the next readiness check, so the in-flight set
is empty at the top of each iteration and the terminal condition is just
`ready = []`.  `aborted` is the state of the run's `AbortController` signal:
`stop()` flips it and it is never reset, so the post-`stop()` portion of a run
is the loop with `aborted = true`.  Fuel only bounds iterations; each non-final
iteration strictly decreases the number of pending nodes. -/
def loopModel (spec : Spec) (dag : DAG) (aborted : Bool) : Nat → RunState → RunState
  | 0, st => st
  | Nat.succ fuel, st =>
    let ready := readyNodes aborted dag st.snap.data
    if ready.isEmpty then finalize st
    else loopModel spec dag aborted fuel (runBatch spec dag ready st)

/-- `_runTopology(spec, dag, snapshot)`: validate spec coverage (JS throws
`TopologyError` on missing nodes, modelled as `none`), then emit the initial
`data` event and run the loop. -/
def runTopologyInternal (spec : Spec) (dag : DAG) (snapshot : Snapshot)
    (aborted : Bool) (fuel : Nat) : Option RunState :=
  if getMissingSpecNodes spec dag = [] then
    some (loopModel spec dag aborted fuel
      { snap := snapshot, trace := [], events := [EvKind.data] })
  else none

/-- `runTopology(spec, options)` with no include/exclude filter: derive the DAG
from the spec, initialize the snapshot data (with optional initial `data`
value), and run. -/
def runTopologyModel (spec : Spec) (data? : Option Value) (aborted : Bool)
    (fuel : Nat) : Option RunState :=
  let dag := extractDag spec
  let snapData := initSnapshotData dag data?
  runTopologyInternal spec dag
    { status := NodeStatus.running, started := 0, finished := none, data := snapData }
    aborted fuel

/-- `resumeTopology(spec, snapshot)`: a `completed` snapshot yields a handle
whose `start()` resolves immediately with no effect — the snapshot is returned
as-is, nothing runs, nothing is emitted.  Otherwise the snapshot is transformed
by `getResumeSnapshot`, the DAG is re-derived from the snapshot data, and the
loop runs. -/
def resumeTopologyModel (spec : Spec) (snapshot : Snapshot) (fuel : Nat) :
    Option RunState :=
  if snapshot.status = NodeStatus.completed then
    some { snap := snapshot, trace := [], events := [] }
  else
    let snap := getResumeSnapshot 0 snapshot
    let dag := extractDagOfData snap.data
    runTopologyInternal spec dag snap false fuel

/-! ## Object-heap model for `getResumeSnapshot` (frame claim)

To state non-mutation of the argument, snapshot objects get identity: a heap
maps references to snapshot values.  `getResumeSnapshot` reads the object at
`r`, builds a fresh object via an object literal with spread (`{...snapshot,
status, started, data}`), whose nested operations (`_.mapValues`, `_.pick`,
object spread) are all non-mutating in lodash/fp, and its only mutation —
`delete snap.finished` — targets the fresh object.  The model therefore
allocates one fresh reference holding the new value and leaves every existing
reference untouched. -/

/-- A heap of snapshot objects. -/
abbrev Heap := List (Nat × Snapshot)

/-- Look up the object at reference `r`. -/
def lookupRef (r : Nat) : Heap → Option Snapshot
  | [] => none
  | kv :: rest => if kv.1 = r then some kv.2 else lookupRef r rest

/-- A reference unused by the heap: one past the largest allocated reference. -/
def freshRef (h : Heap) : Nat :=
  (h.map Prod.fst).foldr max 0 + 1

/-- `getResumeSnapshot` on the heap: read the snapshot at `r`, allocate the
transformed copy at a fresh reference, return the heap and the new reference.
`none` models the `TypeError` JS would throw when `r` is dangling. -/
def getResumeSnapshotHeap (now : Nat) (h : Heap) (r : Nat) : Option (Heap × Nat) :=
  match lookupRef r h with
  | none => none
  | some s => some ((freshRef h, getResumeSnapshot now s) :: h, freshRef h)

/-! ## Transition relations, invariants, and concrete runs -/

/-- The set of status writes the engine actually performs within the lifetime of
one snapshot of a fresh run (derived from the handler call sites of
`_runTopology`): dispatch, settlement, the branched-then-errored slip of a bad
branch selection, and the (repeatable) skip/suspend marks on direct dependents
plus the finalization of pending nodes. -/
def allowedStep : NodeStatus → NodeStatus → Bool
  | NodeStatus.pending, NodeStatus.running => true
  | NodeStatus.running, NodeStatus.completed => true
  | NodeStatus.running, NodeStatus.errored => true
  | NodeStatus.completed, NodeStatus.errored => true
  | NodeStatus.pending, NodeStatus.skipped => true
  | NodeStatus.suspended, NodeStatus.skipped => true
  | NodeStatus.skipped, NodeStatus.skipped => true
  | NodeStatus.pending, NodeStatus.suspended => true
  | NodeStatus.suspended, NodeStatus.suspended => true
  | NodeStatus.skipped, NodeStatus.suspended => true
  | _, _ => false

/-- Modelled from the spec (§4.3, §8): the monotone type-specific state machine
the claim asserts — dispatch `pending → running`, settlement
`running → completed | errored`, and terminal propagation
`pending → skipped | suspended`; in particular a node that has reached
`completed` never moves to `errored`. -/
def monotoneStep : NodeStatus → NodeStatus → Bool
  | NodeStatus.pending, NodeStatus.running => true
  | NodeStatus.running, NodeStatus.completed => true
  | NodeStatus.running, NodeStatus.errored => true
  | NodeStatus.pending, NodeStatus.skipped => true
  | NodeStatus.pending, NodeStatus.suspended => true
  | _, _ => false

/-- The loop-boundary invariant of a run started from `initSnapshotData`: the
snapshot data covers exactly the DAG's nodes, no node is `running` between
iterations (every dispatched action settled), and a `completed` or `errored`
node was dispatched, hence had all its declared dependencies `completed`. -/
def LoopInv (dag : DAG) (data : SnapshotData) : Prop :=
  keysOf data = keysOf dag ∧
  (∀ n nd, lookupStr n data = some nd → nd.status ≠ NodeStatus.running) ∧
  (∀ n nd, lookupStr n data = some nd →
    (nd.status = NodeStatus.completed ∨ nd.status = NodeStatus.errored) →
    ∀ dn, lookupStr n dag = some dn → ∀ d ∈ dn.deps,
      ∃ dd, lookupStr d data = some dd ∧ dd.status = NodeStatus.completed)

/-- The invariant maintained while a ready batch `B` is dispatched: `R` is the
still-unprocessed suffix, `st0` the state at the start of the batch.  Unprocessed
batch nodes are untouched; an entry that changed became a settled batch node or a
skip/suspend mark; `completed`/`errored` entries of `st0` are untouched; nothing
is left `running`; the key set is unchanged. -/
def BatchInv (st0 : RunState) (B R : List String) (st : RunState) : Prop :=
  (∀ m ∈ R, lookupStr m st.snap.data = lookupStr m st0.snap.data) ∧
  (∀ m nd nd0, lookupStr m st.snap.data = some nd →
    lookupStr m st0.snap.data = some nd0 →
    nd = nd0 ∨ ((nd.status = NodeStatus.completed ∨ nd.status = NodeStatus.errored) ∧ m ∈ B)
      ∨ nd.status = NodeStatus.suspended ∨ nd.status = NodeStatus.skipped) ∧
  (∀ m nd0, lookupStr m st0.snap.data = some nd0 →
    (nd0.status = NodeStatus.completed ∨ nd0.status = NodeStatus.errored) →
    lookupStr m st.snap.data = some nd0) ∧
  (∀ m nd, lookupStr m st.snap.data = some nd → nd.status ≠ NodeStatus.running) ∧
  keysOf st.snap.data = keysOf st0.snap.data

/-- Modelled from the spec (§4.4), for comparison with `getInputData`: the
ordered contribution one dependency adds to a node's materialized input — a
work dep contributes its `output` (as one element), a branching or suspension
dep contributes the elements of its own materialized `input`. -/
def depContribution (dag : DAG) (data : SnapshotData) (dep : String) : List Value :=
  match lookupStr dep dag with
  | none => []
  | some dn =>
    match dn.type with
    | NodeType.work => [((lookupStr dep data).bind (fun nd => nd.output)).getD Value.vundef]
    | _ => ((lookupStr dep data).bind (fun nd => nd.input)).getD []

/-- A concrete spec whose branching node `b` selects the name `nope`, which is
not one of its dependents (the only dependent of `b` is `x`). -/
def badBranchSpec : Spec :=
  [("b", { deps := [],
           action := NodeAction.branching
             (fun _ => Except.ok (BranchSel.branch "nope" (some "why"))) }),
   ("x", { deps := ["b"],
           action := NodeAction.work (fun _ => Except.ok (Value.vnum 1)) })]

/-- The completed run of `badBranchSpec` (fuel 3 is ample for its two nodes). -/
def badBranchRun : RunState :=
  (runTopologyModel badBranchSpec Option.none false 3).getD
    { snap := { status := NodeStatus.running, started := 0, finished := none, data := [] },
      trace := [], events := [] }

/-- A concrete spec whose single work node throws `new Error('boom')` (stack
`Error: boom`, no user-attached enumerable fields). -/
def throwSpec : Spec :=
  [("w", { deps := [],
           action := NodeAction.work
             (fun _ => Except.error { message := "boom", stack := "Error: boom",
                                      extra := [] }) })]

/-- A run state about to finalize, with one errored and one pending node
(used as a concrete witness input). -/
def errSampleSt : RunState :=
  { snap := { status := NodeStatus.running, started := 0, finished := none,
              data := [("a", { type := NodeType.work, deps := [],
                               status := NodeStatus.errored }),
                       ("b", { type := NodeType.work, deps := ["a"],
                               status := NodeStatus.pending })] },
    trace := [], events := [] }

/-- The completed run of `throwSpec`. -/
def throwRun : RunState :=
  (runTopologyModel throwSpec Option.none false 2).getD
    { snap := { status := NodeStatus.running, started := 0, finished := none, data := [] },
      trace := [], events := [] }

/-! ## Record lemmas -/

theorem lookupStr_cons {α : Type} (k : String) (kv : String × α) (l : List (String × α)) :
    lookupStr k (kv :: l) = if kv.1 = k then some kv.2 else lookupStr k l := rfl

theorem lookupStr_some_mem {α : Type} {k : String} {v : α} {l : List (String × α)}
    (h : lookupStr k l = some v) : (k, v) ∈ l := by
  induction l with
  | nil => simp [lookupStr] at h
  | cons kv rest ih =>
    rw [lookupStr_cons] at h
    by_cases hk : kv.1 = k
    · subst hk
      rw [if_pos rfl, Option.some.injEq] at h
      subst h
      exact List.mem_cons_self _ _
    · rw [if_neg hk] at h
      exact List.mem_cons_of_mem _ (ih h)

theorem lookupStr_isSome_iff {α : Type} {k : String} {l : List (String × α)} :
    (lookupStr k l).isSome ↔ k ∈ keysOf l := by
  induction l with
  | nil => simp [lookupStr, keysOf]
  | cons kv rest ih =>
    rw [lookupStr_cons]
    by_cases hk : kv.1 = k
    · simp [hk, keysOf]
    · rw [if_neg hk, ih]
      simp only [keysOf, List.map_cons, List.mem_cons]
      constructor
      · exact Or.inr
      · rintro (h | h)
        · exact absurd h.symm hk
        · exact h

theorem lookupStr_eq_none_of_not_mem {α : Type} {k : String} {l : List (String × α)}
    (h : k ∉ keysOf l) : lookupStr k l = none := by
  cases hl : lookupStr k l with
  | none => rfl
  | some v =>
    exact absurd (List.mem_map_of_mem Prod.fst (lookupStr_some_mem hl)) h

theorem mem_keys_of_lookupStr {α : Type} {k : String} {v : α} {l : List (String × α)}
    (h : lookupStr k l = some v) : k ∈ keysOf l :=
  lookupStr_isSome_iff.mp (by rw [h]; rfl)

theorem lookupStr_of_mem_nodup {α : Type} {k : String} {v : α} {l : List (String × α)}
    (hnd : (keysOf l).Nodup) (hmem : (k, v) ∈ l) : lookupStr k l = some v := by
  induction l with
  | nil => simp at hmem
  | cons kv rest ih =>
    rw [keysOf, List.map_cons, List.nodup_cons] at hnd
    rcases List.mem_cons.mp hmem with heq | hmem2
    · rw [lookupStr_cons]
      have hk : kv.1 = k := (congrArg Prod.fst heq).symm
      have hv : kv.2 = v := (congrArg Prod.snd heq).symm
      rw [if_pos hk, hv]
    · rw [lookupStr_cons]
      have hne : ¬ kv.1 = k := by
        intro hkk
        exact hnd.1 (by rw [hkk]; exact List.mem_map_of_mem Prod.fst hmem2)
      rw [if_neg hne]
      exact ih hnd.2 hmem2

theorem lookupStr_map_entry {α β : Type} (g : String → α → β) (k : String)
    (l : List (String × α)) :
    lookupStr k (l.map (fun kv => (kv.1, g kv.1 kv.2))) = (lookupStr k l).map (g k) := by
  induction l with
  | nil => rfl
  | cons kv rest ih =>
    by_cases hk : kv.1 = k
    · subst hk
      simp [lookupStr_cons]
    · rw [List.map_cons, lookupStr_cons, lookupStr_cons, if_neg hk, if_neg hk, ih]

theorem keysOf_map_entry {α β : Type} (g : String → α → β) (l : List (String × α)) :
    keysOf (l.map (fun kv => (kv.1, g kv.1 kv.2))) = keysOf l := by
  induction l with
  | nil => rfl
  | cons kv rest ih => simp [keysOf] at ih ⊢

theorem lookupStr_setNd (m n : String) (f : NodeData → NodeData) (data : SnapshotData) :
    lookupStr m (setNd n f data)
      = if m = n then (lookupStr n data).map f else lookupStr m data := by
  induction data with
  | nil => by_cases hmn : m = n <;> simp [setNd, lookupStr, hmn]
  | cons kv rest ih =>
    show lookupStr m ((if kv.1 = n then (kv.1, f kv.2) else kv) :: setNd n f rest)
        = if m = n then (lookupStr n (kv :: rest)).map f else lookupStr m (kv :: rest)
    by_cases hkn : kv.1 = n
    · subst hkn
      by_cases hkm : kv.1 = m
      · subst hkm
        simp [lookupStr_cons]
      · have hmk : ¬ m = kv.1 := fun h => hkm h.symm
        simp [lookupStr_cons, ih, hkm, hmk]
    · by_cases hkm : kv.1 = m
      · subst hkm
        simp [lookupStr_cons, hkn]
      · simp [lookupStr_cons, ih, hkn, hkm]

theorem keysOf_setNd (n : String) (f : NodeData → NodeData) (data : SnapshotData) :
    keysOf (setNd n f data) = keysOf data := by
  induction data with
  | nil => rfl
  | cons kv rest ih =>
    show keysOf ((if kv.1 = n then (kv.1, f kv.2) else kv) :: setNd n f rest) = _
    by_cases hk : kv.1 = n <;> simp [hk, keysOf] at ih ⊢ <;> exact ih

theorem mem_findKeysStatus {n : String} {s : NodeStatus} {data : SnapshotData} :
    n ∈ findKeysStatus s data ↔ ∃ nd, (n, nd) ∈ data ∧ nd.status = s := by
  unfold findKeysStatus
  constructor
  · intro h
    obtain ⟨kv, hkv, rfl⟩ := List.mem_map.mp h
    obtain ⟨hmem, hst⟩ := List.mem_filter.mp hkv
    exact ⟨kv.2, hmem, by simpa using hst⟩
  · rintro ⟨nd, hmem, hst⟩
    exact List.mem_map.mpr ⟨(n, nd), List.mem_filter.mpr ⟨hmem, by simpa using hst⟩, rfl⟩

theorem mem_findKeysStatus_nodup {n : String} {s : NodeStatus} {data : SnapshotData}
    (hnd : (keysOf data).Nodup) :
    n ∈ findKeysStatus s data ↔ ∃ nd, lookupStr n data = some nd ∧ nd.status = s := by
  rw [mem_findKeysStatus]
  constructor
  · rintro ⟨nd, hmem, hst⟩
    exact ⟨nd, lookupStr_of_mem_nodup hnd hmem, hst⟩
  · rintro ⟨nd, hl, hst⟩
    exact ⟨nd, lookupStr_some_mem hl, hst⟩

theorem mem_getDependents {m node : String} {dag : DAG} :
    m ∈ getDependents node dag ↔ ∃ dn, (m, dn) ∈ dag ∧ node ∈ dn.deps := by
  unfold getDependents
  constructor
  · intro h
    obtain ⟨kv, hkv, rfl⟩ := List.mem_map.mp h
    obtain ⟨hmem, hdep⟩ := List.mem_filter.mp hkv
    exact ⟨kv.2, hmem, by simpa using hdep⟩
  · rintro ⟨dn, hmem, hdep⟩
    exact List.mem_map.mpr ⟨(m, dn), List.mem_filter.mpr ⟨hmem, by simpa using hdep⟩, rfl⟩

theorem nodup_filter_keys {α : Type} (p : String × α → Bool) {l : List (String × α)}
    (h : (keysOf l).Nodup) : ((l.filter p).map Prod.fst).Nodup :=
  List.Nodup.sublist (List.Sublist.map Prod.fst (List.filter_sublist l)) h

theorem nodup_getDependents {node : String} {dag : DAG}
    (h : (keysOf dag).Nodup) : (getDependents node dag).Nodup :=
  nodup_filter_keys _ h

theorem nodup_findKeysStatus {s : NodeStatus} {data : SnapshotData}
    (h : (keysOf data).Nodup) : (findKeysStatus s data).Nodup :=
  nodup_filter_keys _ h

theorem mem_getNodesReadyToRun {dag : DAG} {data : SnapshotData} {n : String}
    (hdag : (keysOf dag).Nodup) (hdata : (keysOf data).Nodup) :
    n ∈ getNodesReadyToRun dag data ↔
      ∃ dn, lookupStr n dag = some dn ∧
        (lookupStr n data = none ∨
          ∃ nd, lookupStr n data = some nd ∧ nd.status = NodeStatus.pending) ∧
        (∀ d ∈ dn.deps, ∃ dd, lookupStr d data = some dd ∧ dd.status = NodeStatus.completed) := by
  unfold getNodesReadyToRun
  constructor
  · intro h
    obtain ⟨kv, hkv, rfl⟩ := List.mem_map.mp h
    obtain ⟨hmem, hcond⟩ := List.mem_filter.mp hkv
    rw [Bool.and_eq_true] at hcond
    obtain ⟨hdeps, hpend⟩ := hcond
    refine ⟨kv.2, lookupStr_of_mem_nodup hdag hmem, ?_, ?_⟩
    · cases hl : lookupStr kv.1 data with
      | none => exact Or.inl rfl
      | some nd =>
        refine Or.inr ⟨nd, rfl, ?_⟩
        rw [hl] at hpend
        simpa using hpend
    · intro d hd
      rw [List.all_eq_true] at hdeps
      have := hdeps d hd
      rw [List.elem_iff] at this
      exact (mem_findKeysStatus_nodup hdata).mp this
  · rintro ⟨dn, hl, hpend, hdeps⟩
    refine List.mem_map.mpr ⟨(n, dn), List.mem_filter.mpr ⟨lookupStr_some_mem hl, ?_⟩, rfl⟩
    rw [Bool.and_eq_true]
    constructor
    · rw [List.all_eq_true]
      intro d hd
      rw [List.elem_iff]
      exact (mem_findKeysStatus_nodup hdata).mpr (hdeps d hd)
    · rcases hpend with hnone | ⟨nd, hsome, hst⟩
      · simp only [hnone]
      · simp only [hsome, hst]; rfl

/-! ## Lemmas about single writes and handler folds -/

theorem writeNode_lookup (n m : String) (f : NodeData → NodeData) (st : RunState) :
    lookupStr m (writeNode n f st).snap.data
      = if m = n then (lookupStr n st.snap.data).map f else lookupStr m st.snap.data := by
  unfold writeNode
  cases hl : lookupStr n st.snap.data with
  | none => by_cases hmn : m = n <;> simp [hmn, hl]
  | some nd => simp [lookupStr_setNd, hl]

theorem writeNode_keys (n : String) (f : NodeData → NodeData) (st : RunState) :
    keysOf (writeNode n f st).snap.data = keysOf st.snap.data := by
  unfold writeNode
  cases hl : lookupStr n st.snap.data with
  | none => rfl
  | some nd => simp [keysOf_setNd]

theorem writeNode_snapStatus (n : String) (f : NodeData → NodeData) (st : RunState) :
    (writeNode n f st).snap.status = st.snap.status := by
  unfold writeNode
  cases hl : lookupStr n st.snap.data with
  | none => rfl
  | some nd => rfl

theorem writeNode_trace (n : String) (f : NodeData → NodeData) (st : RunState) :
    (writeNode n f st).trace = st.trace
    ∨ ∃ nd, lookupStr n st.snap.data = some nd ∧
        (writeNode n f st).trace = st.trace ++ [(n, nd.status, (f nd).status)] := by
  unfold writeNode
  cases hl : lookupStr n st.snap.data with
  | none => exact Or.inl rfl
  | some nd => exact Or.inr ⟨nd, rfl, rfl⟩

theorem writeAll_cons (f : NodeData → NodeData) (a : String) (L : List String)
    (st : RunState) : writeAll f (a :: L) st = writeAll f L (writeNode a f st) := rfl

theorem writeAll_lookup (f : NodeData → NodeData) (L : List String) (st : RunState)
    (hnd : L.Nodup) (m : String) :
    lookupStr m (writeAll f L st).snap.data
      = if m ∈ L then (lookupStr m st.snap.data).map f
        else lookupStr m st.snap.data := by
  induction L generalizing st with
  | nil => simp [writeAll]
  | cons a L ih =>
    rw [List.nodup_cons] at hnd
    rw [writeAll_cons, ih (writeNode a f st) hnd.2]
    by_cases hmL : m ∈ L
    · rw [if_pos hmL, if_pos (List.mem_cons_of_mem a hmL), writeNode_lookup]
      have hma : ¬ m = a := fun h => hnd.1 (h ▸ hmL)
      rw [if_neg hma]
    · rw [if_neg hmL, writeNode_lookup]
      by_cases hma : m = a
      · rw [if_pos hma, if_pos (by rw [hma]; exact List.mem_cons_self a L), hma]
      · rw [if_neg hma, if_neg (by simp [hma, hmL])]

theorem writeAll_keys (f : NodeData → NodeData) (L : List String) (st : RunState) :
    keysOf (writeAll f L st).snap.data = keysOf st.snap.data := by
  induction L generalizing st with
  | nil => rfl
  | cons a L ih =>
    rw [writeAll_cons, ih (writeNode a f st), writeNode_keys]

theorem writeAll_snapStatus (f : NodeData → NodeData) (L : List String) (st : RunState) :
    (writeAll f L st).snap.status = st.snap.status := by
  induction L generalizing st with
  | nil => rfl
  | cons a L ih =>
    rw [writeAll_cons, ih (writeNode a f st), writeNode_snapStatus]

theorem writeAll_trace (f : NodeData → NodeData) (c : NodeStatus)
    (hf : ∀ nd, (f nd).status = c) (L : List String) (st : RunState) (hnd : L.Nodup) :
    ∃ delta, (writeAll f L st).trace = st.trace ++ delta ∧
      ∀ e ∈ delta, ∃ m, m ∈ L ∧ ∃ nd, lookupStr m st.snap.data = some nd
        ∧ e = (m, nd.status, c) := by
  induction L generalizing st with
  | nil =>
    refine ⟨[], by simp [writeAll], by simp⟩
  | cons a L ih =>
    rw [List.nodup_cons] at hnd
    obtain ⟨delta1, h1, h2⟩ := ih (writeNode a f st) hnd.2
    rw [writeAll_cons]
    have hmove : ∀ e ∈ delta1, ∃ m, m ∈ a :: L ∧ ∃ nd,
        lookupStr m st.snap.data = some nd ∧ e = (m, nd.status, c) := by
      intro e he
      obtain ⟨m, hmL, nd, hlook, he⟩ := h2 e he
      refine ⟨m, List.mem_cons_of_mem a hmL, nd, ?_, he⟩
      rw [writeNode_lookup] at hlook
      have hma : ¬ m = a := fun h => hnd.1 (h ▸ hmL)
      rwa [if_neg hma] at hlook
    rcases writeNode_trace a f st with h0 | ⟨nd, hlook0, h0⟩
    · exact ⟨delta1, by rw [h1, h0], hmove⟩
    · refine ⟨(a, nd.status, c) :: delta1, ?_, ?_⟩
      · rw [h1, h0, hf nd]
        simp
      · intro e he
        rcases List.mem_cons.mp he with rfl | he1
        · exact ⟨a, List.mem_cons_self a L, nd, hlook0, rfl⟩
        · exact hmove e he1

theorem writeNode_trace_some (n : String) (f : NodeData → NodeData) (st : RunState)
    {nd : NodeData} (hn : lookupStr n st.snap.data = some nd) :
    (writeNode n f st).trace = st.trace ++ [(n, nd.status, (f nd).status)] := by
  unfold writeNode
  rw [hn]

theorem writeNode_lookup_same (n : String) (f : NodeData → NodeData) (st : RunState)
    {nd : NodeData} (hn : lookupStr n st.snap.data = some nd) :
    lookupStr n (writeNode n f st).snap.data = some (f nd) := by
  rw [writeNode_lookup, if_pos rfl, hn]
  rfl

theorem doubleWrite_lookup (n m : String) (g1 g2 : NodeData → NodeData) (st : RunState) :
    lookupStr m (writeNode n g2 (writeNode n g1 st)).snap.data
      = if m = n then (lookupStr n st.snap.data).map (fun nd => g2 (g1 nd))
        else lookupStr m st.snap.data := by
  by_cases hmn : m = n
  · subst hmn
    rw [writeNode_lookup, if_pos rfl, writeNode_lookup, if_pos rfl, if_pos rfl,
        Option.map_map]
    rfl
  · rw [writeNode_lookup, if_neg hmn, writeNode_lookup, if_neg hmn, if_neg hmn]

theorem doubleWrite_trace (n : String) (g1 g2 : NodeData → NodeData) (st : RunState)
    {nd0 : NodeData} (hn : lookupStr n st.snap.data = some nd0) :
    (writeNode n g2 (writeNode n g1 st)).trace
      = st.trace ++ [(n, nd0.status, (g1 nd0).status),
                     (n, (g1 nd0).status, (g2 (g1 nd0)).status)] := by
  rw [writeNode_trace_some n g2 _ (writeNode_lookup_same n g1 st hn),
      writeNode_trace_some n g1 st hn, List.append_assoc]
  rfl

theorem doubleWrite_keys (n : String) (g1 g2 : NodeData → NodeData) (st : RunState) :
    keysOf (writeNode n g2 (writeNode n g1 st)).snap.data = keysOf st.snap.data := by
  rw [writeNode_keys, writeNode_keys]

theorem mem_pair {α : Type} {x a b : α} (h : x ∈ [a, b]) : x = a ∨ x = b := by
  rcases List.mem_cons.mp h with h1 | h1
  · exact Or.inl h1
  · rcases List.mem_cons.mp h1 with h2 | h2
    · exact Or.inr h2
    · cases h2

theorem mem_triple {α : Type} {x a b c : α} (h : x ∈ [a, b, c]) :
    x = a ∨ x = b ∨ x = c := by
  rcases List.mem_cons.mp h with h1 | h1
  · exact Or.inl h1
  · exact Or.inr (mem_pair h1)

/-- The full characterization of one dispatch (`runNode`) needed by the batch
induction: (frame) only `n` and its dependents are written; (settle) `n` ends
`completed` or `errored`; (deps) a dependent is untouched or marked
`skipped`/`suspended`; (trace) the new trace entries are allowed steps and are
keyed by `n` or are skip/suspend marks; (keys) the key set is unchanged;
(badbranch) when the selector picked a name that is not a dependent, `n` ends
`errored` with the captured `Branch not found` error. -/
theorem runNode_step (spec : Spec) (dag : DAG) (n : String) (st : RunState)
    (sn : SpecNode) (hspec : lookupStr n spec = some sn)
    (nd0 : NodeData) (hn : lookupStr n st.snap.data = some nd0)
    (hpend : nd0.status = NodeStatus.pending)
    (hdepnodup : (getDependents n dag).Nodup)
    (hself : n ∉ getDependents n dag)
    (hdep : ∀ m ∈ getDependents n dag, ∀ nd, lookupStr m st.snap.data = some nd →
      nd.status = NodeStatus.pending ∨ nd.status = NodeStatus.suspended ∨
      nd.status = NodeStatus.skipped) :
    (∀ m, ¬ m = n → m ∉ getDependents n dag →
      lookupStr m (runNode spec dag n st).snap.data = lookupStr m st.snap.data) ∧
    (∃ nd1, lookupStr n (runNode spec dag n st).snap.data = some nd1 ∧
      (nd1.status = NodeStatus.completed ∨ nd1.status = NodeStatus.errored)) ∧
    (∀ m, m ∈ getDependents n dag →
      lookupStr m (runNode spec dag n st).snap.data = lookupStr m st.snap.data ∨
      ∃ ndm, lookupStr m (runNode spec dag n st).snap.data = some ndm ∧
        (ndm.status = NodeStatus.skipped ∨ ndm.status = NodeStatus.suspended)) ∧
    (∃ delta, (runNode spec dag n st).trace = st.trace ++ delta ∧ ∀ e ∈ delta,
      allowedStep e.2.1 e.2.2 = true ∧
      (e.1 = n ∨ e.2.2 = NodeStatus.skipped ∨ e.2.2 = NodeStatus.suspended)) ∧
    keysOf (runNode spec dag n st).snap.data = keysOf st.snap.data ∧
    (∀ runf name r, sn.action = NodeAction.branching runf →
      runf ((getInputData dag n st.snap.data).getD []) = Except.ok (BranchSel.branch name r) →
      name ∉ getDependents n dag →
      ∃ nd1, lookupStr n (runNode spec dag n st).snap.data = some nd1 ∧
        nd1.status = NodeStatus.errored ∧
        nd1.error = some (capturedError (topologyError ("Branch not found: " ++ name)))) := by
  have hDne : ∀ m, m ∈ getDependents n dag → ¬ m = n := by
    intro m hm hmn
    exact hself (hmn ▸ hm)
  simp only [runNode, hspec]
  rcases sn with ⟨deps0, act⟩
  simp only at hspec ⊢
  cases act with
  | work runf =>
    cases hrun : runf ((getInputData dag n st.snap.data).getD []) with
    | ok out =>
      simp only [hrun]
      refine ⟨?_, ?_, ?_, ?_, ?_, ?_⟩
      · intro m hm _
        rw [doubleWrite_lookup, if_neg hm]
      · rw [doubleWrite_lookup, if_pos rfl, hn]
        exact ⟨_, rfl, Or.inl rfl⟩
      · intro m hm
        left
        rw [doubleWrite_lookup, if_neg (hDne m hm)]
      · refine ⟨_, doubleWrite_trace n _ _ st hn, ?_⟩
        intro e he
        rcases mem_pair he with rfl | rfl
        · rw [hpend]; exact ⟨rfl, Or.inl rfl⟩
        · exact ⟨rfl, Or.inl rfl⟩
      · exact doubleWrite_keys n _ _ st
      · intro runf2 name r hact
        exact absurd hact (by intro h; cases h)
    | error e =>
      simp only [hrun]
      refine ⟨?_, ?_, ?_, ?_, ?_, ?_⟩
      · intro m hm _
        rw [doubleWrite_lookup, if_neg hm]
      · rw [doubleWrite_lookup, if_pos rfl, hn]
        exact ⟨_, rfl, Or.inr rfl⟩
      · intro m hm
        left
        rw [doubleWrite_lookup, if_neg (hDne m hm)]
      · refine ⟨_, doubleWrite_trace n _ _ st hn, ?_⟩
        intro e2 he
        rcases mem_pair he with rfl | rfl
        · rw [hpend]; exact ⟨rfl, Or.inl rfl⟩
        · exact ⟨rfl, Or.inl rfl⟩
      · exact doubleWrite_keys n _ _ st
      · intro runf2 name r hact
        exact absurd hact (by intro h; cases h)
  | suspension runf =>
    cases hrun : runSuspensionAction runf ((getInputData dag n st.snap.data).getD []) with
    | ok u =>
      simp only [hrun]
      have h2 : lookupStr n (writeNode n (completedFn Value.vundef)
          (writeNode n (runningFn ((getInputData dag n st.snap.data).getD [])) st)).snap.data
          = some (completedFn Value.vundef
              (runningFn ((getInputData dag n st.snap.data).getD []) nd0)) := by
        rw [doubleWrite_lookup, if_pos rfl, hn]; rfl
      refine ⟨?_, ?_, ?_, ?_, ?_, ?_⟩
      · intro m hm hmD
        rw [writeAll_lookup _ _ _ hdepnodup, if_neg hmD, doubleWrite_lookup, if_neg hm]
      · rw [writeAll_lookup _ _ _ hdepnodup, if_neg hself, doubleWrite_lookup, if_pos rfl, hn]
        exact ⟨_, rfl, Or.inl rfl⟩
      · intro m hm
        rw [writeAll_lookup _ _ _ hdepnodup, if_pos hm, doubleWrite_lookup,
            if_neg (hDne m hm)]
        cases hlm : lookupStr m st.snap.data with
        | none => exact Or.inl rfl
        | some ndm => exact Or.inr ⟨_, rfl, Or.inr rfl⟩
      · obtain ⟨delta1, hd1, hd2⟩ :=
          writeAll_trace suspendedFn NodeStatus.suspended (fun _ => rfl)
            (getDependents n dag) _ hdepnodup
        refine ⟨_, by rw [hd1, doubleWrite_trace n _ _ st hn, List.append_assoc], ?_⟩
        intro e2 he
        rcases List.mem_append.mp he with he | he
        · rcases mem_pair he with rfl | rfl
          · rw [hpend]; exact ⟨rfl, Or.inl rfl⟩
          · exact ⟨rfl, Or.inl rfl⟩
        · obtain ⟨m, hmD, ndm, hlm, he⟩ := hd2 e2 he
          rw [doubleWrite_lookup, if_neg (hDne m hmD)] at hlm
          subst he
          refine ⟨?_, Or.inr (Or.inr rfl)⟩
          rcases hdep m hmD ndm hlm with h | h | h <;> rw [h] <;> rfl
      · rw [writeAll_keys, doubleWrite_keys]
      · intro runf2 name r hact
        exact absurd hact (by intro h; cases h)
    | error e =>
      simp only [hrun]
      refine ⟨?_, ?_, ?_, ?_, ?_, ?_⟩
      · intro m hm _
        rw [doubleWrite_lookup, if_neg hm]
      · rw [doubleWrite_lookup, if_pos rfl, hn]
        exact ⟨_, rfl, Or.inr rfl⟩
      · intro m hm
        left
        rw [doubleWrite_lookup, if_neg (hDne m hm)]
      · refine ⟨_, doubleWrite_trace n _ _ st hn, ?_⟩
        intro e2 he
        rcases mem_pair he with rfl | rfl
        · rw [hpend]; exact ⟨rfl, Or.inl rfl⟩
        · exact ⟨rfl, Or.inl rfl⟩
      · exact doubleWrite_keys n _ _ st
      · intro runf2 name r hact
        exact absurd hact (by intro h; cases h)
  | branching runf =>
    cases hrun : runf ((getInputData dag n st.snap.data).getD []) with
    | error e =>
      simp only [hrun]
      refine ⟨?_, ?_, ?_, ?_, ?_, ?_⟩
      · intro m hm _
        rw [doubleWrite_lookup, if_neg hm]
      · rw [doubleWrite_lookup, if_pos rfl, hn]
        exact ⟨_, rfl, Or.inr rfl⟩
      · intro m hm
        left
        rw [doubleWrite_lookup, if_neg (hDne m hm)]
      · refine ⟨_, doubleWrite_trace n _ _ st hn, ?_⟩
        intro e2 he
        rcases mem_pair he with rfl | rfl
        · rw [hpend]; exact ⟨rfl, Or.inl rfl⟩
        · exact ⟨rfl, Or.inl rfl⟩
      · exact doubleWrite_keys n _ _ st
      · intro runf2 name r hact hres
        injection hact with hact2
        subst hact2
        rw [hrun] at hres
        cases hres
    | ok sel =>
      cases sel with
      | noneBranch reason =>
        simp only [hrun]
        refine ⟨?_, ?_, ?_, ?_, ?_, ?_⟩
        · intro m hm hmD
          rw [writeAll_lookup _ _ _ hdepnodup, if_neg hmD, doubleWrite_lookup, if_neg hm]
        · rw [writeAll_lookup _ _ _ hdepnodup, if_neg hself, doubleWrite_lookup,
              if_pos rfl, hn]
          exact ⟨_, rfl, Or.inl rfl⟩
        · intro m hm
          rw [writeAll_lookup _ _ _ hdepnodup, if_pos hm, doubleWrite_lookup,
              if_neg (hDne m hm)]
          cases hlm : lookupStr m st.snap.data with
          | none => exact Or.inl rfl
          | some ndm => exact Or.inr ⟨_, rfl, Or.inl rfl⟩
        · obtain ⟨delta1, hd1, hd2⟩ :=
            writeAll_trace skippedFn NodeStatus.skipped (fun _ => rfl)
              (getDependents n dag) _ hdepnodup
          refine ⟨_, by rw [hd1, doubleWrite_trace n _ _ st hn, List.append_assoc], ?_⟩
          intro e2 he
          rcases List.mem_append.mp he with he | he
          · rcases mem_pair he with rfl | rfl
            · rw [hpend]; exact ⟨rfl, Or.inl rfl⟩
            · exact ⟨rfl, Or.inl rfl⟩
          · obtain ⟨m, hmD, ndm, hlm, he⟩ := hd2 e2 he
            rw [doubleWrite_lookup, if_neg (hDne m hmD)] at hlm
            subst he
            refine ⟨?_, Or.inr (Or.inl rfl)⟩
            rcases hdep m hmD ndm hlm with h | h | h <;> rw [h] <;> rfl
        · rw [writeAll_keys, doubleWrite_keys]
        · intro runf2 name r hact hres
          injection hact with hact2
          subst hact2
          rw [hrun] at hres
          cases hres
      | branch name reason =>
        simp only [hrun]
        cases hcont : (getDependents n dag).contains name with
        | true =>
          simp only [hcont, if_pos]
          have hfnodup : ((getDependents n dag).filter (fun m => m != name)).Nodup :=
            List.Nodup.filter _ hdepnodup
          have hfsub : ∀ m, m ∈ (getDependents n dag).filter (fun m => m != name) →
              m ∈ getDependents n dag := by
            intro m hm
            exact List.mem_of_mem_filter hm
          refine ⟨?_, ?_, ?_, ?_, ?_, ?_⟩
          · intro m hm hmD
            rw [writeAll_lookup _ _ _ hfnodup,
                if_neg (fun hc => hmD (hfsub m hc)), doubleWrite_lookup, if_neg hm]
          · rw [writeAll_lookup _ _ _ hfnodup,
                if_neg (fun hc => hself (hfsub n hc)), doubleWrite_lookup, if_pos rfl, hn]
            exact ⟨_, rfl, Or.inl rfl⟩
          · intro m hm
            rw [writeAll_lookup _ _ _ hfnodup, doubleWrite_lookup, if_neg (hDne m hm)]
            by_cases hmf : m ∈ (getDependents n dag).filter (fun m => m != name)
            · rw [if_pos hmf]
              cases hlm : lookupStr m st.snap.data with
              | none => exact Or.inl rfl
              | some ndm => exact Or.inr ⟨_, rfl, Or.inl rfl⟩
            · rw [if_neg hmf]
              exact Or.inl rfl
          · obtain ⟨delta1, hd1, hd2⟩ :=
              writeAll_trace skippedFn NodeStatus.skipped (fun _ => rfl)
                ((getDependents n dag).filter (fun m => m != name)) _ hfnodup
            refine ⟨_, by rw [hd1, doubleWrite_trace n _ _ st hn, List.append_assoc], ?_⟩
            intro e2 he
            rcases List.mem_append.mp he with he | he
            · rcases mem_pair he with rfl | rfl
              · rw [hpend]; exact ⟨rfl, Or.inl rfl⟩
              · exact ⟨rfl, Or.inl rfl⟩
            · obtain ⟨m, hmF, ndm, hlm, he⟩ := hd2 e2 he
              have hmD := hfsub m hmF
              rw [doubleWrite_lookup, if_neg (hDne m hmD)] at hlm
              subst he
              refine ⟨?_, Or.inr (Or.inl rfl)⟩
              rcases hdep m hmD ndm hlm with h | h | h <;> rw [h] <;> rfl
          · rw [writeAll_keys, doubleWrite_keys]
          · intro runf2 name2 r hact hres hnotdep2
            injection hact with hact2
            subst hact2
            rw [hrun] at hres
            injection hres with hres2
            injection hres2 with hname hreason
            subst hname
            exact absurd (List.elem_iff.mp hcont) hnotdep2
        | false =>
          simp only [hcont, Bool.false_eq_true, if_neg, if_false]
          have hnotdep : name ∉ getDependents n dag := by
            intro hmem
            have hT : (getDependents n dag).contains name = true := List.elem_iff.mpr hmem
            rw [hcont] at hT
            exact Bool.noConfusion hT
          have htriple : ∀ m, lookupStr m (writeNode n
              (erroredFn (capturedError (topologyError ("Branch not found: " ++ name))))
              (writeNode n (branchedFn name reason)
                (writeNode n (runningFn ((getInputData dag n st.snap.data).getD [])) st))).snap.data
              = if m = n then some (erroredFn
                    (capturedError (topologyError ("Branch not found: " ++ name)))
                    (branchedFn name reason
                      (runningFn ((getInputData dag n st.snap.data).getD []) nd0)))
                else lookupStr m st.snap.data := by
            intro m
            by_cases hmn : m = n
            · subst hmn
              rw [writeNode_lookup, if_pos rfl, doubleWrite_lookup, if_pos rfl,
                  if_pos rfl, hn]
              rfl
            · rw [writeNode_lookup, if_neg hmn, doubleWrite_lookup, if_neg hmn,
                  if_neg hmn]
          refine ⟨?_, ?_, ?_, ?_, ?_, ?_⟩
          · intro m hm _
            rw [htriple m, if_neg hm]
          · rw [htriple n, if_pos rfl]
            exact ⟨_, rfl, Or.inr rfl⟩
          · intro m hm
            left
            rw [htriple m, if_neg (hDne m hm)]
          · have h2 := writeNode_lookup_same n (branchedFn name reason)
              (writeNode n (runningFn ((getInputData dag n st.snap.data).getD [])) st)
              (writeNode_lookup_same n _ st hn)
            refine ⟨_, by rw [writeNode_trace_some n _ _ h2,
              doubleWrite_trace n _ _ st hn, List.append_assoc], ?_⟩
            intro e2 he
            rcases mem_triple he with rfl | rfl | rfl
            · rw [hpend]; exact ⟨rfl, Or.inl rfl⟩
            · exact ⟨rfl, Or.inl rfl⟩
            · exact ⟨rfl, Or.inl rfl⟩
          · rw [writeNode_keys, doubleWrite_keys]
          · intro runf2 name2 r hact hres _
            injection hact with hact2
            subst hact2
            rw [hrun] at hres
            injection hres with hres2
            injection hres2 with hname hreason
            subst hname
            rw [htriple n, if_pos rfl]
            exact ⟨_, rfl, rfl, rfl⟩

/-! ## Frame lemmas: a dispatch writes only the node and its dependents -/

theorem writeAll_not_mem (f : NodeData → NodeData) (L : List String) (st : RunState)
    (m : String) (hm : m ∉ L) :
    lookupStr m (writeAll f L st).snap.data = lookupStr m st.snap.data := by
  induction L generalizing st with
  | nil => rfl
  | cons a L ih =>
    rw [writeAll_cons, ih (writeNode a f st) (fun h => hm (List.mem_cons_of_mem a h)),
        writeNode_lookup,
        if_neg (fun h : m = a => hm (by rw [h]; exact List.mem_cons_self a L))]

theorem runNode_frame (spec : Spec) (dag : DAG) (n : String) (st : RunState)
    (m : String) (hmn : ¬ m = n) (hmD : m ∉ getDependents n dag) :
    lookupStr m (runNode spec dag n st).snap.data = lookupStr m st.snap.data := by
  cases hsp : lookupStr n spec with
  | none => simp only [runNode, hsp]
  | some sn =>
    simp only [runNode, hsp]
    rcases sn with ⟨deps0, act⟩
    simp only
    cases act with
    | work runf =>
      cases hr : runf ((getInputData dag n st.snap.data).getD []) with
      | ok out => simp only [hr]; rw [doubleWrite_lookup, if_neg hmn]
      | error e => simp only [hr]; rw [doubleWrite_lookup, if_neg hmn]
    | branching runf =>
      cases hr : runf ((getInputData dag n st.snap.data).getD []) with
      | error e => simp only [hr]; rw [doubleWrite_lookup, if_neg hmn]
      | ok sel =>
        cases sel with
        | noneBranch reason =>
          simp only [hr]
          rw [writeAll_not_mem _ _ _ _ hmD, doubleWrite_lookup, if_neg hmn]
        | branch name reason =>
          simp only [hr]
          cases hc : (getDependents n dag).contains name with
          | true =>
            simp only [hc, if_pos]
            rw [writeAll_not_mem _ _ _ _ (fun hf => hmD (List.mem_of_mem_filter hf)),
                doubleWrite_lookup, if_neg hmn]
          | false =>
            simp only [hc, Bool.false_eq_true, if_neg, if_false]
            rw [writeNode_lookup, if_neg hmn, doubleWrite_lookup, if_neg hmn]
    | suspension runf =>
      cases hr : runSuspensionAction runf ((getInputData dag n st.snap.data).getD []) with
      | ok u =>
        simp only [hr]
        rw [writeAll_not_mem _ _ _ _ hmD, doubleWrite_lookup, if_neg hmn]
      | error e => simp only [hr]; rw [doubleWrite_lookup, if_neg hmn]

theorem runBatch_cons (spec : Spec) (dag : DAG) (a : String) (L : List String)
    (st : RunState) :
    runBatch spec dag (a :: L) st = runBatch spec dag L (runNode spec dag a st) := rfl

theorem runBatch_frame (spec : Spec) (dag : DAG) (R : List String) (st : RunState)
    (m : String) (hm : ∀ p ∈ R, ¬ m = p ∧ m ∉ getDependents p dag) :
    lookupStr m (runBatch spec dag R st).snap.data = lookupStr m st.snap.data := by
  induction R generalizing st with
  | nil => rfl
  | cons a R ih =>
    rw [runBatch_cons, ih (runNode spec dag a st) (fun p hp => hm p (List.mem_cons_of_mem a hp)),
        runNode_frame spec dag a st m (hm a (List.mem_cons_self a R)).1
          (hm a (List.mem_cons_self a R)).2]

/-! ## Facts about ready nodes -/

theorem ready_facts {dag : DAG} {data : SnapshotData} {n : String}
    (hdag : (keysOf dag).Nodup) (hkeys : keysOf data = keysOf dag)
    (hmem : n ∈ getNodesReadyToRun dag data) :
    ∃ dn nd, lookupStr n dag = some dn ∧ lookupStr n data = some nd ∧
      nd.status = NodeStatus.pending ∧
      ∀ d ∈ dn.deps, ∃ dd, lookupStr d data = some dd ∧
        dd.status = NodeStatus.completed := by
  have hdata : (keysOf data).Nodup := by rw [hkeys]; exact hdag
  obtain ⟨dn, hdn, hpend, hdeps⟩ := (mem_getNodesReadyToRun hdag hdata).mp hmem
  rcases hpend with hnone | ⟨nd, hnd, hst⟩
  · exfalso
    have h1 : n ∈ keysOf data := by
      rw [hkeys]; exact mem_keys_of_lookupStr hdn
    have h2 := lookupStr_isSome_iff.mpr h1
    rw [hnone] at h2
    cases h2
  · exact ⟨dn, nd, hdn, hnd, hst, hdeps⟩

theorem ready_not_dependent {dag : DAG} {data : SnapshotData}
    (hdag : (keysOf dag).Nodup) (hkeys : keysOf data = keysOf dag) {n m : String}
    (hn : n ∈ getNodesReadyToRun dag data) (hm : m ∈ getNodesReadyToRun dag data)
    (hdep : m ∈ getDependents n dag) : False := by
  obtain ⟨dnm, hmemdag, hnin⟩ := mem_getDependents.mp hdep
  obtain ⟨dnm2, ndm, hdnm2, hndm, hpendm, hdepsm⟩ := ready_facts hdag hkeys hm
  have hdnm : lookupStr m dag = some dnm := lookupStr_of_mem_nodup hdag hmemdag
  rw [hdnm2] at hdnm
  injection hdnm with heq
  subst heq
  obtain ⟨dd, hdd, hddst⟩ := hdepsm n hnin
  obtain ⟨dn, nd, _, hnd, hpendn, _⟩ := ready_facts hdag hkeys hn
  rw [hnd] at hdd
  injection hdd with heq2
  subst heq2
  rw [hpendn] at hddst
  cases hddst

theorem spec_covers {spec : Spec} {dag : DAG}
    (hmiss : getMissingSpecNodes spec dag = []) {n : String}
    (hn : n ∈ keysOf dag) : ∃ sn, lookupStr n spec = some sn := by
  unfold getMissingSpecNodes at hmiss
  have h1 := List.filter_eq_nil_iff.mp hmiss n hn
  have h2 : (keysOf spec).contains n = true := by
    cases hc : (keysOf spec).contains n with
    | true => rfl
    | false => exact absurd (by rw [hc]; rfl) h1
  have h3 : n ∈ keysOf spec := List.elem_iff.mp h2
  exact Option.isSome_iff_exists.mp (lookupStr_isSome_iff.mpr h3)

/-! ## The batch induction -/

/-- Dispatching the remaining suffix `R` of a ready batch `B` preserves
`BatchInv`, appends only allowed trace steps that are keyed by batch members or
are skip/suspend marks, and settles every bad-branching member of `R` to
`errored` with the captured `Branch not found` error. -/
theorem runBatch_go (spec : Spec) (dag : DAG) (st0 : RunState) (B : List String)
    (hdag : (keysOf dag).Nodup)
    (hmiss : getMissingSpecNodes spec dag = [])
    (hInv : LoopInv dag st0.snap.data)
    (hB : B = getNodesReadyToRun dag st0.snap.data) :
    ∀ R st, (∀ r ∈ R, r ∈ B) → R.Nodup → BatchInv st0 B R st →
    BatchInv st0 B [] (runBatch spec dag R st) ∧
    (∃ delta, (runBatch spec dag R st).trace = st.trace ++ delta ∧
      ∀ e ∈ delta, allowedStep e.2.1 e.2.2 = true ∧
        (e.1 ∈ B ∨ e.2.2 = NodeStatus.skipped ∨ e.2.2 = NodeStatus.suspended)) ∧
    (∀ n ∈ R, ∀ sn runf name, lookupStr n spec = some sn →
      sn.action = NodeAction.branching runf →
      (∀ input, ∃ rr, runf input = Except.ok (BranchSel.branch name rr)) →
      name ∉ getDependents n dag →
      ∃ nd1, lookupStr n (runBatch spec dag R st).snap.data = some nd1 ∧
        nd1.status = NodeStatus.errored ∧
        nd1.error = some (capturedError (topologyError ("Branch not found: " ++ name)))) := by
  intro R
  induction R with
  | nil =>
    intro st _ _ hbi
    refine ⟨⟨fun m hm => absurd hm (List.not_mem_nil m), hbi.2.1, hbi.2.2.1,
      hbi.2.2.2.1, hbi.2.2.2.2⟩, ⟨[], by simp [runBatch], by simp⟩, ?_⟩
    intro n hn
    exact absurd hn (List.not_mem_nil n)
  | cons a R ih =>
    intro st hRB hRnd hbi
    have hRnd2 := List.nodup_cons.mp hRnd
    have haB : a ∈ B := hRB a (List.mem_cons_self a R)
    have haReady : a ∈ getNodesReadyToRun dag st0.snap.data := hB ▸ haB
    obtain ⟨dn, nd0, hdn, hnd0, hpend0, hdeps0⟩ := ready_facts hdag hInv.1 haReady
    have hnda : lookupStr a st.snap.data = some nd0 := by
      rw [hbi.1 a (List.mem_cons_self a R), hnd0]
    obtain ⟨sn, hsn⟩ := spec_covers hmiss (mem_keys_of_lookupStr hdn)
    have hself : a ∉ getDependents a dag :=
      fun hd => ready_not_dependent hdag hInv.1 haReady haReady hd
    -- a direct dependent of `a` is pending, suspended or skipped at `st`
    have hdepstat : ∀ m ∈ getDependents a dag, ∀ ndm, lookupStr m st.snap.data = some ndm →
        ndm.status = NodeStatus.pending ∨ ndm.status = NodeStatus.suspended ∨
        ndm.status = NodeStatus.skipped := by
      intro m hmD ndm hndm
      obtain ⟨dnm, hmemdag, hain⟩ := mem_getDependents.mp hmD
      have hdnm : lookupStr m dag = some dnm := lookupStr_of_mem_nodup hdag hmemdag
      obtain ⟨ndm0, hndm0⟩ : ∃ v, lookupStr m st0.snap.data = some v := by
        have h1 : m ∈ keysOf st0.snap.data := by
          rw [← hbi.2.2.2.2]
          exact mem_keys_of_lookupStr hndm
        exact Option.isSome_iff_exists.mp (lookupStr_isSome_iff.mpr h1)
      rcases hbi.2.1 m ndm ndm0 hndm hndm0 with heq | ⟨hce, hmB⟩ | h | h
      · subst heq
        cases hst6 : ndm.status with
        | pending => exact Or.inl rfl
        | running => exact absurd hst6 (hInv.2.1 m ndm hndm0)
        | suspended => exact Or.inr (Or.inl rfl)
        | skipped => exact Or.inr (Or.inr rfl)
        | completed =>
          exfalso
          obtain ⟨dd, hdd, hddst⟩ :=
            hInv.2.2 m ndm hndm0 (Or.inl hst6) dnm hdnm a hain
          rw [hnd0] at hdd
          injection hdd with heq2
          subst heq2
          rw [hpend0] at hddst
          cases hddst
        | errored =>
          exfalso
          obtain ⟨dd, hdd, hddst⟩ :=
            hInv.2.2 m ndm hndm0 (Or.inr hst6) dnm hdnm a hain
          rw [hnd0] at hdd
          injection hdd with heq2
          subst heq2
          rw [hpend0] at hddst
          cases hddst
      · exact absurd hmD (fun hd =>
          ready_not_dependent hdag hInv.1 haReady (hB ▸ hmB) hd)
      · exact Or.inr (Or.inl h)
      · exact Or.inr (Or.inr h)
    obtain ⟨rframe, ⟨nd1, hnd1, hnd1st⟩, rdeps, ⟨delta0, hdelta0, hdelta0f⟩, rkeys, rbad⟩ :=
      runNode_step spec dag a st sn hsn nd0 hnda hpend0 (nodup_getDependents hdag)
        hself hdepstat
    -- `BatchInv` is preserved by the dispatch of `a`
    have hbi1 : BatchInv st0 B R (runNode spec dag a st) := by
      refine ⟨?_, ?_, ?_, ?_, ?_⟩
      · intro m hmR
        have hma : ¬ m = a := fun h => hRnd2.1 (h ▸ hmR)
        have hmD : m ∉ getDependents a dag := fun hd =>
          ready_not_dependent hdag hInv.1 haReady
            (hB ▸ hRB m (List.mem_cons_of_mem a hmR)) hd
        rw [rframe m hma hmD]
        exact hbi.1 m (List.mem_cons_of_mem a hmR)
      · intro m ndm ndm0 hndm hndm0
        by_cases hma : m = a
        · subst hma
          rw [hnd1] at hndm
          injection hndm with h
          subst h
          exact Or.inr (Or.inl ⟨hnd1st, haB⟩)
        · by_cases hmD : m ∈ getDependents a dag
          · rcases rdeps m hmD with heq | ⟨ndm2, hndm2, hst2⟩
            · rw [heq] at hndm
              exact hbi.2.1 m ndm ndm0 hndm hndm0
            · rw [hndm2] at hndm
              injection hndm with h
              subst h
              rcases hst2 with h | h
              · exact Or.inr (Or.inr (Or.inr h))
              · exact Or.inr (Or.inr (Or.inl h))
          · rw [rframe m hma hmD] at hndm
            exact hbi.2.1 m ndm ndm0 hndm hndm0
      · intro m ndm0 hndm0 hcem
        have hb3 := hbi.2.2.1 m ndm0 hndm0 hcem
        have hma : ¬ m = a := by
          intro h
          subst h
          rw [hnd0] at hndm0
          injection hndm0 with h2
          subst h2
          rcases hcem with h | h <;> rw [hpend0] at h <;> cases h
        have hmD : m ∉ getDependents a dag := by
          intro hd
          obtain ⟨dnm, hmemdag, hain⟩ := mem_getDependents.mp hd
          have hdnm : lookupStr m dag = some dnm := lookupStr_of_mem_nodup hdag hmemdag
          obtain ⟨dd, hdd, hddst⟩ := hInv.2.2 m ndm0 hndm0 hcem dnm hdnm a hain
          rw [hnd0] at hdd
          injection hdd with h2
          subst h2
          rw [hpend0] at hddst
          cases hddst
        rw [rframe m hma hmD]
        exact hb3
      · intro m ndm hndm
        by_cases hma : m = a
        · subst hma
          rw [hnd1] at hndm
          injection hndm with h
          subst h
          rcases hnd1st with h | h <;> rw [h] <;> intro hc <;> cases hc
        · by_cases hmD : m ∈ getDependents a dag
          · rcases rdeps m hmD with heq | ⟨ndm2, hndm2, hst2⟩
            · rw [heq] at hndm
              exact hbi.2.2.2.1 m ndm hndm
            · rw [hndm2] at hndm
              injection hndm with h
              subst h
              rcases hst2 with h | h <;> rw [h] <;> intro hc <;> cases hc
          · rw [rframe m hma hmD] at hndm
            exact hbi.2.2.2.1 m ndm hndm
      · rw [rkeys]
        exact hbi.2.2.2.2
    obtain ⟨hbiF, ⟨delta1, hdelta1, hdelta1f⟩, hbc5⟩ :=
      ih (runNode spec dag a st) (fun r hr => hRB r (List.mem_cons_of_mem a hr))
        hRnd2.2 hbi1
    refine ⟨hbiF, ⟨delta0 ++ delta1, ?_, ?_⟩, ?_⟩
    · rw [runBatch_cons, hdelta1, hdelta0, List.append_assoc]
    · intro e he
      rcases List.mem_append.mp he with he | he
      · obtain ⟨hall, hkey⟩ := hdelta0f e he
        refine ⟨hall, ?_⟩
        rcases hkey with h | h
        · exact Or.inl (h ▸ haB)
        · exact Or.inr h
      · exact hdelta1f e he
    · intro n hn sn2 runf name hsn2 hact hconst hnotdep
      rcases List.mem_cons.mp hn with rfl | hnR
      · rw [hsn] at hsn2
        injection hsn2 with h
        subst h
        obtain ⟨rr, hrr⟩ := hconst ((getInputData dag n st.snap.data).getD [])
        obtain ⟨nd2, hnd2, hnd2st, hnd2err⟩ := rbad runf name rr hact hrr hnotdep
        have hframe : lookupStr n (runBatch spec dag R (runNode spec dag n st)).snap.data
            = lookupStr n (runNode spec dag n st).snap.data := by
          apply runBatch_frame
          intro p hp
          refine ⟨fun h => hRnd2.1 (h ▸ hp), fun hd => ?_⟩
          exact ready_not_dependent hdag hInv.1
            (hB ▸ hRB p (List.mem_cons_of_mem n hp)) haReady hd
        rw [runBatch_cons]
        exact ⟨nd2, by rw [hframe]; exact hnd2, hnd2st, hnd2err⟩
      · exact hbc5 n hnR sn2 runf name hsn2 hact hconst hnotdep

/-! ## Finalization -/

theorem mem_findKeysStatus_lookup {n : String} {s : NodeStatus} {data : SnapshotData}
    (hnd : (keysOf data).Nodup) {nd : NodeData} (h : lookupStr n data = some nd) :
    n ∈ findKeysStatus s data ↔ nd.status = s := by
  rw [mem_findKeysStatus_nodup hnd]
  constructor
  · rintro ⟨ndx, hx, hs⟩
    rw [h] at hx
    injection hx with e
    subst e
    exact hs
  · intro hs
    exact ⟨nd, h, hs⟩

theorem findKeysStatus_isEmpty_iff {s : NodeStatus} {data : SnapshotData}
    (hnd : (keysOf data).Nodup) :
    (findKeysStatus s data).isEmpty = true ↔
      ¬ ∃ n nd, lookupStr n data = some nd ∧ nd.status = s := by
  rw [List.isEmpty_iff]
  constructor
  · rintro h ⟨n, nd, hl, hs⟩
    have hmem : n ∈ findKeysStatus s data := (mem_findKeysStatus_nodup hnd).mpr ⟨nd, hl, hs⟩
    rw [h] at hmem
    exact absurd hmem (List.not_mem_nil n)
  · intro h
    cases hfk : findKeysStatus s data with
    | nil => rfl
    | cons x xs =>
      exfalso
      have hx : x ∈ findKeysStatus s data := by
        rw [hfk]
        exact List.mem_cons_self x xs
      obtain ⟨nd, hl, hs⟩ := (mem_findKeysStatus_nodup hnd).mp hx
      exact h ⟨x, nd, hl, hs⟩

/-- The complete characterization of terminal detection: the chosen terminal
status, the per-node effect on still-pending nodes, and the shape of the
appended trace. -/
theorem finalize_facts (st : RunState) (hnd : (keysOf st.snap.data).Nodup) :
    ((finalize st).snap.status = NodeStatus.errored ↔
      ∃ n nd, lookupStr n st.snap.data = some nd ∧ nd.status = NodeStatus.errored) ∧
    ((finalize st).snap.status = NodeStatus.suspended ↔
      (¬ ∃ n nd, lookupStr n st.snap.data = some nd ∧ nd.status = NodeStatus.errored) ∧
      ∃ n nd, lookupStr n st.snap.data = some nd ∧ nd.status = NodeStatus.suspended) ∧
    ((finalize st).snap.status = NodeStatus.completed ↔
      (¬ ∃ n nd, lookupStr n st.snap.data = some nd ∧ nd.status = NodeStatus.errored) ∧
      ¬ ∃ n nd, lookupStr n st.snap.data = some nd ∧ nd.status = NodeStatus.suspended) ∧
    (∀ n nd, lookupStr n st.snap.data = some nd →
      lookupStr n (finalize st).snap.data = some (
        if nd.status = NodeStatus.pending then
          (if (finalize st).snap.status = NodeStatus.suspended then suspendedFn nd
           else if (finalize st).snap.status = NodeStatus.completed then skippedFn nd
           else nd)
        else nd)) ∧
    (∃ delta, (finalize st).trace = st.trace ++ delta ∧
      ∀ e ∈ delta, e.2.1 = NodeStatus.pending ∧
        (e.2.2 = NodeStatus.suspended ∨ e.2.2 = NodeStatus.skipped)) := by
  have hpendmem : ∀ n nd, lookupStr n st.snap.data = some nd →
      (n ∈ findKeysStatus NodeStatus.pending st.snap.data ↔ nd.status = NodeStatus.pending) :=
    fun n nd h => mem_findKeysStatus_lookup hnd h
  have hpnodup : (findKeysStatus NodeStatus.pending st.snap.data).Nodup :=
    nodup_findKeysStatus hnd
  cases hE : (findKeysStatus NodeStatus.errored st.snap.data).isEmpty with
  | false =>
    have hEx : ∃ n nd, lookupStr n st.snap.data = some nd ∧
        nd.status = NodeStatus.errored := by
      by_contra hc
      rw [(findKeysStatus_isEmpty_iff hnd).mpr hc] at hE
      cases hE
    have hfin : finalize st =
        { snap := { st.snap with status := NodeStatus.errored, finished := some 0 },
          trace := st.trace, events := st.events ++ [EvKind.error] } := by
      simp [finalize, hE]
    rw [hfin]
    refine ⟨by simpa using hEx, ?_, ?_, ?_, ⟨[], by simp, by simp⟩⟩
    · simp only [Snapshot.mk.injEq]
      constructor
      · intro h
        cases h
      · rintro ⟨hno, _⟩
        exact absurd hEx hno
    · simp only []
      constructor
      · intro h
        cases h
      · rintro ⟨hno, _⟩
        exact absurd hEx hno
    · intro n nd h
      rcases hst : nd.status with h6 | h6 | h6 | h6 | h6 | h6 <;> simp [hst, h]
  | true =>
    have hnoE : ¬ ∃ n nd, lookupStr n st.snap.data = some nd ∧
        nd.status = NodeStatus.errored := (findKeysStatus_isEmpty_iff hnd).mp hE
    cases hS : (findKeysStatus NodeStatus.suspended st.snap.data).isEmpty with
    | false =>
      have hSx : ∃ n nd, lookupStr n st.snap.data = some nd ∧
          nd.status = NodeStatus.suspended := by
        by_contra hc
        rw [(findKeysStatus_isEmpty_iff hnd).mpr hc] at hS
        cases hS
      have hfin : finalize st =
          { writeAll suspendedFn (findKeysStatus NodeStatus.pending st.snap.data)
              { st with snap := { st.snap with status := NodeStatus.suspended } } with
            snap := { (writeAll suspendedFn (findKeysStatus NodeStatus.pending st.snap.data)
              { st with snap := { st.snap with status := NodeStatus.suspended } }).snap
                with finished := some 0 },
            events := (writeAll suspendedFn (findKeysStatus NodeStatus.pending st.snap.data)
              { st with snap := { st.snap with status := NodeStatus.suspended } }).events
                ++ [EvKind.done] } := by
        simp [finalize, hE, hS]
      have hstat : (finalize st).snap.status = NodeStatus.suspended := by
        rw [hfin]
        simp only []
        rw [writeAll_snapStatus]
      refine ⟨?_, ?_, ?_, ?_, ?_⟩
      · rw [hstat]
        constructor
        · intro h
          cases h
        · intro hEx
          exact absurd hEx hnoE
      · rw [hstat]
        simp only [true_iff]
        exact ⟨hnoE, hSx⟩
      · rw [hstat]
        constructor
        · intro h
          cases h
        · rintro ⟨_, hno⟩
          exact absurd hSx hno
      · intro n nd h
        rw [hstat]
        have hlook : lookupStr n (finalize st).snap.data
            = lookupStr n (writeAll suspendedFn
                (findKeysStatus NodeStatus.pending st.snap.data)
                { st with snap := { st.snap with status := NodeStatus.suspended } }).snap.data := by
          rw [hfin]
        rw [hlook, writeAll_lookup _ _ _ hpnodup]
        by_cases hp : nd.status = NodeStatus.pending
        · rw [if_pos ((hpendmem n nd h).mpr hp)]
          show ((lookupStr n st.snap.data).map suspendedFn) = _
          rw [h]
          simp [hp]
        · rw [if_neg (fun hc => hp ((hpendmem n nd h).mp hc))]
          show lookupStr n st.snap.data = _
          rw [h]
          simp [hp]
      · obtain ⟨delta, hd1, hd2⟩ :=
          writeAll_trace suspendedFn NodeStatus.suspended (fun _ => rfl)
            (findKeysStatus NodeStatus.pending st.snap.data)
            { st with snap := { st.snap with status := NodeStatus.suspended } } hpnodup
        refine ⟨delta, ?_, ?_⟩
        · have htr : (finalize st).trace
              = (writeAll suspendedFn (findKeysStatus NodeStatus.pending st.snap.data)
                  { st with snap := { st.snap with status := NodeStatus.suspended } }).trace := by
            rw [hfin]
          rw [htr, hd1]
        · intro e he
          obtain ⟨m, hmL, ndm, hlm, he2⟩ := hd2 e he
          subst he2
          have hlm2 : lookupStr m st.snap.data = some ndm := hlm
          have hps : ndm.status = NodeStatus.pending := by
            obtain ⟨ndx, hx, hs⟩ := (mem_findKeysStatus_nodup hnd).mp hmL
            rw [hx] at hlm2
            injection hlm2 with e2
            subst e2
            exact hs
          exact ⟨hps, Or.inl rfl⟩
    | true =>
      have hnoS : ¬ ∃ n nd, lookupStr n st.snap.data = some nd ∧
          nd.status = NodeStatus.suspended := (findKeysStatus_isEmpty_iff hnd).mp hS
      have hfin : finalize st =
          { writeAll skippedFn (findKeysStatus NodeStatus.pending st.snap.data)
              { st with snap := { st.snap with status := NodeStatus.completed } } with
            snap := { (writeAll skippedFn (findKeysStatus NodeStatus.pending st.snap.data)
              { st with snap := { st.snap with status := NodeStatus.completed } }).snap
                with finished := some 0 },
            events := (writeAll skippedFn (findKeysStatus NodeStatus.pending st.snap.data)
              { st with snap := { st.snap with status := NodeStatus.completed } }).events
                ++ [EvKind.done] } := by
        simp [finalize, hE, hS]
      have hstat : (finalize st).snap.status = NodeStatus.completed := by
        rw [hfin]
        simp only []
        rw [writeAll_snapStatus]
      refine ⟨?_, ?_, ?_, ?_, ?_⟩
      · rw [hstat]
        constructor
        · intro h
          cases h
        · intro hEx
          exact absurd hEx hnoE
      · rw [hstat]
        constructor
        · intro h
          cases h
        · rintro ⟨_, hSx⟩
          exact absurd hSx hnoS
      · rw [hstat]
        simp only [true_iff]
        exact ⟨hnoE, hnoS⟩
      · intro n nd h
        rw [hstat]
        have hlook : lookupStr n (finalize st).snap.data
            = lookupStr n (writeAll skippedFn
                (findKeysStatus NodeStatus.pending st.snap.data)
                { st with snap := { st.snap with status := NodeStatus.completed } }).snap.data := by
          rw [hfin]
        rw [hlook, writeAll_lookup _ _ _ hpnodup]
        by_cases hp : nd.status = NodeStatus.pending
        · rw [if_pos ((hpendmem n nd h).mpr hp)]
          show ((lookupStr n st.snap.data).map skippedFn) = _
          rw [h]
          simp [hp]
        · rw [if_neg (fun hc => hp ((hpendmem n nd h).mp hc))]
          show lookupStr n st.snap.data = _
          rw [h]
          simp [hp]
      · obtain ⟨delta, hd1, hd2⟩ :=
          writeAll_trace skippedFn NodeStatus.skipped (fun _ => rfl)
            (findKeysStatus NodeStatus.pending st.snap.data)
            { st with snap := { st.snap with status := NodeStatus.completed } } hpnodup
        refine ⟨delta, ?_, ?_⟩
        · have htr : (finalize st).trace
              = (writeAll skippedFn (findKeysStatus NodeStatus.pending st.snap.data)
                  { st with snap := { st.snap with status := NodeStatus.completed } }).trace := by
            rw [hfin]
          rw [htr, hd1]
        · intro e he
          obtain ⟨m, hmL, ndm, hlm, he2⟩ := hd2 e he
          subst he2
          have hlm2 : lookupStr m st.snap.data = some ndm := hlm
          have hps : ndm.status = NodeStatus.pending := by
            obtain ⟨ndx, hx, hs⟩ := (mem_findKeysStatus_nodup hnd).mp hmL
            rw [hx] at hlm2
            injection hlm2 with e2
            subst e2
            exact hs
          exact ⟨hps, Or.inr rfl⟩

/-! ## Loop-level lemmas -/

theorem readyNodes_false (dag : DAG) (data : SnapshotData) :
    readyNodes false dag data = getNodesReadyToRun dag data := rfl

theorem readyNodes_true (dag : DAG) (data : SnapshotData) :
    readyNodes true dag data = [] := rfl

theorem loopModel_true_succ (spec : Spec) (dag : DAG) (fuel : Nat) (st : RunState) :
    loopModel spec dag true (fuel + 1) st = finalize st := by
  simp [loopModel, readyNodes]

theorem writeAll_trace_status (f : NodeData → NodeData) (c : NodeStatus)
    (hf : ∀ nd, (f nd).status = c) (L : List String) (st : RunState) :
    ∃ delta, (writeAll f L st).trace = st.trace ++ delta ∧ ∀ e ∈ delta, e.2.2 = c := by
  induction L generalizing st with
  | nil => exact ⟨[], by simp [writeAll], by simp⟩
  | cons a L ih =>
    obtain ⟨delta1, h1, h2⟩ := ih (writeNode a f st)
    rw [writeAll_cons]
    rcases writeNode_trace a f st with h0 | ⟨nd, _, h0⟩
    · exact ⟨delta1, by rw [h1, h0], h2⟩
    · refine ⟨(a, nd.status, c) :: delta1, ?_, ?_⟩
      · rw [h1, h0, hf nd]
        simp
      · intro e he
        rcases List.mem_cons.mp he with rfl | he1
        · rfl
        · exact h2 e he1

/-- Every trace entry appended by `finalize` is a skip or suspend mark. -/
theorem finalize_trace_status (st : RunState) :
    ∃ delta, (finalize st).trace = st.trace ++ delta ∧
      ∀ e ∈ delta, e.2.2 = NodeStatus.suspended ∨ e.2.2 = NodeStatus.skipped := by
  cases hE : (findKeysStatus NodeStatus.errored st.snap.data).isEmpty with
  | false =>
    refine ⟨[], ?_, by simp⟩
    simp [finalize, hE]
  | true =>
    cases hS : (findKeysStatus NodeStatus.suspended st.snap.data).isEmpty with
    | false =>
      obtain ⟨delta, h1, h2⟩ :=
        writeAll_trace_status suspendedFn NodeStatus.suspended (fun _ => rfl)
          (findKeysStatus NodeStatus.pending st.snap.data)
          { st with snap := { st.snap with status := NodeStatus.suspended } }
      refine ⟨delta, ?_, fun e he => Or.inl (h2 e he)⟩
      have htr : (finalize st).trace
          = (writeAll suspendedFn (findKeysStatus NodeStatus.pending st.snap.data)
              { st with snap := { st.snap with status := NodeStatus.suspended } }).trace := by
        simp [finalize, hE, hS]
      rw [htr, h1]
    | true =>
      obtain ⟨delta, h1, h2⟩ :=
        writeAll_trace_status skippedFn NodeStatus.skipped (fun _ => rfl)
          (findKeysStatus NodeStatus.pending st.snap.data)
          { st with snap := { st.snap with status := NodeStatus.completed } }
      refine ⟨delta, ?_, fun e he => Or.inr (h2 e he)⟩
      have htr : (finalize st).trace
          = (writeAll skippedFn (findKeysStatus NodeStatus.pending st.snap.data)
              { st with snap := { st.snap with status := NodeStatus.completed } }).trace := by
        simp [finalize, hE, hS]
      rw [htr, h1]

/-- One full batch preserves the loop invariant; the trace grows by allowed
steps keyed by batch members or skip/suspend marks; bad-branching batch members
settle to `errored`; `completed`/`errored` entries are untouched. -/
theorem batch_inv (spec : Spec) (dag : DAG) (st : RunState)
    (hdag : (keysOf dag).Nodup) (hmiss : getMissingSpecNodes spec dag = [])
    (hInv : LoopInv dag st.snap.data) :
    LoopInv dag (runBatch spec dag (getNodesReadyToRun dag st.snap.data) st).snap.data ∧
    (∃ delta, (runBatch spec dag (getNodesReadyToRun dag st.snap.data) st).trace
        = st.trace ++ delta ∧
      ∀ e ∈ delta, allowedStep e.2.1 e.2.2 = true ∧
        (e.1 ∈ getNodesReadyToRun dag st.snap.data ∨
         e.2.2 = NodeStatus.skipped ∨ e.2.2 = NodeStatus.suspended)) ∧
    (∀ n ∈ getNodesReadyToRun dag st.snap.data, ∀ sn runf name,
      lookupStr n spec = some sn → sn.action = NodeAction.branching runf →
      (∀ input, ∃ rr, runf input = Except.ok (BranchSel.branch name rr)) →
      name ∉ getDependents n dag →
      ∃ nd1, lookupStr n (runBatch spec dag
          (getNodesReadyToRun dag st.snap.data) st).snap.data = some nd1 ∧
        nd1.status = NodeStatus.errored ∧
        nd1.error = some (capturedError (topologyError ("Branch not found: " ++ name)))) ∧
    (∀ m nd0, lookupStr m st.snap.data = some nd0 →
      (nd0.status = NodeStatus.completed ∨ nd0.status = NodeStatus.errored) →
      lookupStr m (runBatch spec dag
        (getNodesReadyToRun dag st.snap.data) st).snap.data = some nd0) := by
  have hBnodup : (getNodesReadyToRun dag st.snap.data).Nodup := nodup_filter_keys _ hdag
  have hbi0 : BatchInv st (getNodesReadyToRun dag st.snap.data)
      (getNodesReadyToRun dag st.snap.data) st := by
    refine ⟨fun m _ => rfl, ?_, fun m nd0 h _ => h, hInv.2.1, rfl⟩
    intro m nd nd0 h h0
    rw [h] at h0
    injection h0 with e
    exact Or.inl e
  obtain ⟨hbiF, hdelta, hbc5⟩ :=
    runBatch_go spec dag st (getNodesReadyToRun dag st.snap.data) hdag hmiss hInv rfl
      (getNodesReadyToRun dag st.snap.data) st (fun r hr => hr) hBnodup hbi0
  refine ⟨?_, hdelta, hbc5, hbiF.2.2.1⟩
  refine ⟨?_, hbiF.2.2.2.1, ?_⟩
  · rw [hbiF.2.2.2.2, hInv.1]
  · intro m nd hnd hce dnm hdnm d hd
    obtain ⟨nd0, hnd0⟩ : ∃ v, lookupStr m st.snap.data = some v := by
      have h1 : m ∈ keysOf st.snap.data := by
        rw [← hbiF.2.2.2.2]
        exact mem_keys_of_lookupStr hnd
      exact Option.isSome_iff_exists.mp (lookupStr_isSome_iff.mpr h1)
    rcases hbiF.2.1 m nd nd0 hnd hnd0 with heq | ⟨hce2, hmB⟩ | h | h
    · subst heq
      obtain ⟨dd, hdd, hddst⟩ := hInv.2.2 m nd hnd0 hce dnm hdnm d hd
      exact ⟨dd, hbiF.2.2.1 d dd hdd (Or.inl hddst), hddst⟩
    · obtain ⟨dnx, ndx, hdnx, hndx, hpendx, hdepsx⟩ := ready_facts hdag hInv.1 hmB
      rw [hdnm] at hdnx
      injection hdnx with e
      subst e
      obtain ⟨dd, hdd, hddst⟩ := hdepsx d hd
      exact ⟨dd, hbiF.2.2.1 d dd hdd (Or.inl hddst), hddst⟩
    · rcases hce with hx | hx <;> rw [h] at hx <;> cases hx
    · rcases hce with hx | hx <;> rw [h] at hx <;> cases hx

/-- All trace entries a run of the loop appends are allowed steps. -/
theorem loop_allowed (spec : Spec) (dag : DAG)
    (hdag : (keysOf dag).Nodup) (hmiss : getMissingSpecNodes spec dag = []) :
    ∀ (fuel : Nat) (st : RunState), LoopInv dag st.snap.data →
    ∃ delta, (loopModel spec dag false fuel st).trace = st.trace ++ delta ∧
      ∀ e ∈ delta, allowedStep e.2.1 e.2.2 = true := by
  intro fuel
  induction fuel with
  | zero =>
    intro st _
    exact ⟨[], by simp [loopModel], by simp⟩
  | succ fuel ih =>
    intro st hInv
    by_cases hready : (readyNodes false dag st.snap.data).isEmpty
    · have hred : loopModel spec dag false (fuel + 1) st = finalize st := by
        simp [loopModel, hready]
      obtain ⟨_, _, _, _, delta, hd1, hd2⟩ :=
        finalize_facts st (by rw [hInv.1]; exact hdag)
      refine ⟨delta, by rw [hred, hd1], ?_⟩
      intro e he
      obtain ⟨hp, hss⟩ := hd2 e he
      rcases hss with h | h <;> rw [hp, h] <;> rfl
    · have hred : loopModel spec dag false (fuel + 1) st
          = loopModel spec dag false fuel
              (runBatch spec dag (getNodesReadyToRun dag st.snap.data) st) := by
        simp [loopModel, hready]
        rfl
      obtain ⟨hInv2, ⟨delta0, hD0, hD0f⟩, _, _⟩ := batch_inv spec dag st hdag hmiss hInv
      obtain ⟨delta1, hD1, hD1f⟩ :=
        ih (runBatch spec dag (getNodesReadyToRun dag st.snap.data) st) hInv2
      refine ⟨delta0 ++ delta1, ?_, ?_⟩
      · rw [hred, hD1, hD0, List.append_assoc]
      · intro e he
        rcases List.mem_append.mp he with he | he
        · exact (hD0f e he).1
        · exact hD1f e he

/-- A node that is `completed` or `errored` at a loop boundary keeps its entry,
bit for bit, to the end of the run. -/
theorem loop_settled_stable (spec : Spec) (dag : DAG)
    (hdag : (keysOf dag).Nodup) (hmiss : getMissingSpecNodes spec dag = []) :
    ∀ (fuel : Nat) (st : RunState) (n : String) (ndE : NodeData),
    LoopInv dag st.snap.data →
    lookupStr n st.snap.data = some ndE →
    (ndE.status = NodeStatus.completed ∨ ndE.status = NodeStatus.errored) →
    lookupStr n (loopModel spec dag false fuel st).snap.data = some ndE := by
  intro fuel
  induction fuel with
  | zero =>
    intro st n ndE _ hn _
    simpa [loopModel] using hn
  | succ fuel ih =>
    intro st n ndE hInv hn hce
    by_cases hready : (readyNodes false dag st.snap.data).isEmpty
    · have hred : loopModel spec dag false (fuel + 1) st = finalize st := by
        simp [loopModel, hready]
      obtain ⟨_, _, _, hpernode, _⟩ := finalize_facts st (by rw [hInv.1]; exact hdag)
      rw [hred, hpernode n ndE hn]
      have hnp : ¬ ndE.status = NodeStatus.pending := by
        rcases hce with h | h <;> rw [h] <;> intro hc <;> cases hc
      rw [if_neg hnp]
    · have hred : loopModel spec dag false (fuel + 1) st
          = loopModel spec dag false fuel
              (runBatch spec dag (getNodesReadyToRun dag st.snap.data) st) := by
        simp [loopModel, hready]
        rfl
      obtain ⟨hInv2, _, _, hb3⟩ := batch_inv spec dag st hdag hmiss hInv
      rw [hred]
      exact ih _ n ndE hInv2 (hb3 n ndE hn hce) hce

/-- If a node with a constant bad branch selector is ever dispatched by the
loop, it ends the run `errored` with the captured `Branch not found` error. -/
theorem loop_bad_branch (spec : Spec) (dag : DAG)
    (hdag : (keysOf dag).Nodup) (hmiss : getMissingSpecNodes spec dag = []) :
    ∀ (fuel : Nat) (st : RunState) (n : String) (sn : SpecNode)
      (runf : List Value → Except JSError BranchSel) (name : String) (o : NodeStatus),
    LoopInv dag st.snap.data →
    lookupStr n spec = some sn →
    sn.action = NodeAction.branching runf →
    (∀ input, ∃ rr, runf input = Except.ok (BranchSel.branch name rr)) →
    name ∉ getDependents n dag →
    (n, o, NodeStatus.running) ∈ (loopModel spec dag false fuel st).trace →
    (n, o, NodeStatus.running) ∈ st.trace ∨
    ∃ nd1, lookupStr n (loopModel spec dag false fuel st).snap.data = some nd1 ∧
      nd1.status = NodeStatus.errored ∧
      nd1.error = some (capturedError (topologyError ("Branch not found: " ++ name))) := by
  intro fuel
  induction fuel with
  | zero =>
    intro st n sn runf name o _ _ _ _ _ hmem
    exact Or.inl (by simpa [loopModel] using hmem)
  | succ fuel ih =>
    intro st n sn runf name o hInv hsn hact hconst hnotdep hmem
    by_cases hready : (readyNodes false dag st.snap.data).isEmpty
    · have hred : loopModel spec dag false (fuel + 1) st = finalize st := by
        simp [loopModel, hready]
      rw [hred] at hmem
      obtain ⟨delta, hd1, hd2⟩ := finalize_trace_status st
      rw [hd1] at hmem
      rcases List.mem_append.mp hmem with hmem | hmem
      · exact Or.inl hmem
      · rcases hd2 _ hmem with h | h <;> cases h
    · have hred : loopModel spec dag false (fuel + 1) st
          = loopModel spec dag false fuel
              (runBatch spec dag (getNodesReadyToRun dag st.snap.data) st) := by
        simp [loopModel, hready]
        rfl
      obtain ⟨hInv2, ⟨delta0, hD0, hD0f⟩, hbc5, _⟩ := batch_inv spec dag st hdag hmiss hInv
      by_cases hnB : n ∈ getNodesReadyToRun dag st.snap.data
      · obtain ⟨nd1, hnd1, hnd1st, hnd1err⟩ := hbc5 n hnB sn runf name hsn hact hconst hnotdep
        right
        rw [hred]
        exact ⟨nd1, loop_settled_stable spec dag hdag hmiss fuel _ n nd1 hInv2 hnd1
          (Or.inr hnd1st), hnd1st, hnd1err⟩
      · rw [hred] at hmem
        rcases ih _ n sn runf name o hInv2 hsn hact hconst hnotdep hmem with hmem2 | hdone
        · rw [hD0] at hmem2
          rcases List.mem_append.mp hmem2 with hmem2 | hmem2
          · exact Or.inl hmem2
          · obtain ⟨_, hkey⟩ := hD0f _ hmem2
            rcases hkey with h | h | h
            · exact absurd h hnB
            · cases h
            · cases h
        · right
          rw [hred]
          exact hdone

/-! ## Initialization lemmas -/

theorem extractDag_lookup (spec : Spec) (n : String) :
    lookupStr n (extractDag spec)
      = (lookupStr n spec).map
          (fun sn => ({ deps := sn.deps, type := sn.action.nodeType } : DagNode)) := by
  unfold extractDag
  exact lookupStr_map_entry
    (fun _ sn => ({ deps := sn.deps, type := sn.action.nodeType } : DagNode)) n spec

theorem extractDag_keys (spec : Spec) : keysOf (extractDag spec) = keysOf spec := by
  unfold extractDag
  exact keysOf_map_entry
    (fun _ sn => ({ deps := sn.deps, type := sn.action.nodeType } : DagNode)) spec

theorem initSnapshotData_lookup (dag : DAG) (data? : Option Value) (n : String) :
    lookupStr n (initSnapshotData dag data?)
      = (lookupStr n dag).map (fun dn =>
          ({ type := dn.type, deps := dn.deps, status := NodeStatus.pending,
             input := if data?.isSome && (getNodesWithNoDeps dag).contains n
                      then some [data?.getD Value.vundef] else none } : NodeData)) := by
  unfold initSnapshotData
  exact lookupStr_map_entry
    (fun k dn => ({ type := dn.type, deps := dn.deps, status := NodeStatus.pending,
                    input := if data?.isSome && (getNodesWithNoDeps dag).contains k
                             then some [data?.getD Value.vundef] else none } : NodeData)) n dag

theorem initSnapshotData_keys (dag : DAG) (data? : Option Value) :
    keysOf (initSnapshotData dag data?) = keysOf dag := by
  unfold initSnapshotData
  exact keysOf_map_entry
    (fun k dn => ({ type := dn.type, deps := dn.deps, status := NodeStatus.pending,
                    input := if data?.isSome && (getNodesWithNoDeps dag).contains k
                             then some [data?.getD Value.vundef] else none } : NodeData)) dag

theorem init_loopInv (dag : DAG) (data? : Option Value) :
    LoopInv dag (initSnapshotData dag data?) := by
  refine ⟨initSnapshotData_keys dag data?, ?_, ?_⟩
  · intro n nd h
    rw [initSnapshotData_lookup] at h
    cases hl : lookupStr n dag with
    | none => rw [hl] at h; cases h
    | some dn =>
      rw [hl] at h
      injection h with h2
      rw [← h2]
      intro hc
      cases hc
  · intro n nd h hce
    exfalso
    rw [initSnapshotData_lookup] at h
    cases hl : lookupStr n dag with
    | none => rw [hl] at h; cases h
    | some dn =>
      rw [hl] at h
      injection h with h2
      rcases hce with hx | hx <;> rw [← h2] at hx <;> cases hx

theorem depsInput_join (dag : DAG) (data : SnapshotData) :
    ∀ deps : List String, (∀ d ∈ deps, ∃ dd, lookupStr d dag = some dd) →
    depsInput dag data deps = some ((deps.map (depContribution dag data)).flatten) := by
  intro deps
  induction deps with
  | nil => intro _; rfl
  | cons dep rest ih =>
    intro hdeps
    obtain ⟨dd, hdd⟩ := hdeps dep (List.mem_cons_self dep rest)
    have hrest := ih (fun d hd => hdeps d (List.mem_cons_of_mem dep hd))
    rw [List.map_cons, List.flatten_cons]
    simp only [depsInput, hdd, hrest, depContribution]
    cases htype : dd.type with
    | work => rfl
    | branching =>
      cases hi : (lookupStr dep data).bind (fun nd => nd.input) with
      | none => rfl
      | some depInp => rfl
    | suspension =>
      cases hi : (lookupStr dep data).bind (fun nd => nd.input) with
      | none => rfl
      | some depInp => rfl

/-! ## Heap lemmas for the resume-snapshot frame property -/

theorem lookupRef_cons (r : Nat) (kv : Nat × Snapshot) (h : Heap) :
    lookupRef r (kv :: h) = if kv.1 = r then some kv.2 else lookupRef r h := rfl

theorem lookupRef_some_mem {r : Nat} {s : Snapshot} {h : Heap}
    (hl : lookupRef r h = some s) : r ∈ h.map Prod.fst := by
  induction h with
  | nil => simp [lookupRef] at hl
  | cons kv rest ih =>
    rw [lookupRef_cons] at hl
    by_cases hk : kv.1 = r
    · rw [List.map_cons, hk]
      exact List.mem_cons_self r _
    · rw [if_neg hk] at hl
      exact List.mem_cons_of_mem _ (ih hl)

theorem mem_le_foldr_max : ∀ (l : List Nat) (x : Nat), x ∈ l → x ≤ l.foldr max 0 := by
  intro l
  induction l with
  | nil => intro x hx; simp at hx
  | cons a l ih =>
    intro x hx
    rcases List.mem_cons.mp hx with rfl | hx
    · exact le_max_left _ _
    · exact le_trans (ih x hx) (le_max_right _ _)

theorem lookupRef_fresh (h : Heap) : lookupRef (freshRef h) h = none := by
  cases hl : lookupRef (freshRef h) h with
  | none => rfl
  | some s =>
    exfalso
    have hm := mem_le_foldr_max (h.map Prod.fst) _ (lookupRef_some_mem hl)
    simp only [freshRef] at hm
    omega

/-! ## Claim theorems -/

/-- C1: `getNodesReadyToRun` returns exactly the nodes `N` of the DAG whose
snapshot entry is absent or has status `pending` and whose every declared
dependency `D` in `dag[N].deps` has status `completed` in the snapshot data.
In particular a dependency whose status is `suspended`, `skipped`, `errored`
or `running` (i.e. anything other than `completed`) does not make `N` ready,
since the right-hand side demands status `completed` of every dependency. -/
theorem c1_ready_iff (dag : DAG) (data : SnapshotData) (n : String)
    (hdag : (keysOf dag).Nodup) (hdata : (keysOf data).Nodup) :
    n ∈ getNodesReadyToRun dag data ↔
      ∃ dn, lookupStr n dag = some dn ∧
        (lookupStr n data = none ∨
          ∃ nd, lookupStr n data = some nd ∧ nd.status = NodeStatus.pending) ∧
        (∀ d ∈ dn.deps, ∃ dd, lookupStr d data = some dd ∧
          dd.status = NodeStatus.completed) :=
  mem_getNodesReadyToRun hdag hdata

/-- Witness for C1 at a concrete DAG and snapshot. -/
theorem c1_ready_iff_witness :
    "b" ∈ getNodesReadyToRun
      [("a", { deps := [], type := NodeType.work }),
       ("b", { deps := ["a"], type := NodeType.work })]
      [("a", { type := NodeType.work, deps := [], status := NodeStatus.completed }),
       ("b", { type := NodeType.work, deps := ["a"], status := NodeStatus.pending })] := by
  apply (c1_ready_iff
    [("a", { deps := [], type := NodeType.work }),
     ("b", { deps := ["a"], type := NodeType.work })]
    [("a", { type := NodeType.work, deps := [], status := NodeStatus.completed }),
     ("b", { type := NodeType.work, deps := ["a"], status := NodeStatus.pending })]
    "b" (by decide) (by decide)).mpr
  refine ⟨{ deps := ["a"], type := NodeType.work }, rfl, Or.inr ⟨_, rfl, rfl⟩, ?_⟩
  intro d hd
  rcases List.mem_singleton.mp hd with rfl
  exact ⟨_, rfl, rfl⟩

/-- C6: resuming a `completed` snapshot is a no-op — `resumeTopology` returns a
handle whose `start()` resolves immediately: nothing runs (empty trace), no
event fires (empty event list), and `getSnapshot()` returns the very snapshot
that was passed in. -/
theorem c6_resume_completed_noop (spec : Spec) (snapshot : Snapshot) (fuel : Nat)
    (h : snapshot.status = NodeStatus.completed) :
    resumeTopologyModel spec snapshot fuel
      = some { snap := snapshot, trace := [], events := [] } := by
  unfold resumeTopologyModel
  rw [if_pos h]

/-- Witness for C6 at a concrete completed snapshot. -/
theorem c6_resume_completed_noop_witness :
    resumeTopologyModel []
      { status := NodeStatus.completed, started := 3, finished := some 9,
        data := [("a", { type := NodeType.work, deps := [],
                         status := NodeStatus.completed })] } 5
      = some { snap := { status := NodeStatus.completed, started := 3, finished := some 9,
                         data := [("a", { type := NodeType.work, deps := [],
                                          status := NodeStatus.completed })] },
               trace := [], events := [] } :=
  c6_resume_completed_noop []
    { status := NodeStatus.completed, started := 3, finished := some 9,
      data := [("a", { type := NodeType.work, deps := [],
                       status := NodeStatus.completed })] } 5 rfl

theorem resetEntry_idem (kv : String × NodeData) : resetEntry (resetEntry kv) = resetEntry kv := by
  cases hs : kv.2.status <;> simp [resetEntry, hs]

/-- C8: the resume reset is idempotent — applying `resetUncompletedNodes` twice
equals applying it once; moreover each `completed`/`skipped` entry is kept
as-is and every other entry is reduced to exactly its `input`, `state`, `deps`
and `type` fields with status `pending` (all other fields dropped). -/
theorem c8_reset_idempotent :
    (∀ data : SnapshotData,
      resetUncompletedNodes (resetUncompletedNodes data) = resetUncompletedNodes data) ∧
    (∀ (data : SnapshotData) (n : String) (nd : NodeData),
      lookupStr n data = some nd →
      lookupStr n (resetUncompletedNodes data) = some (
        if nd.status = NodeStatus.completed || nd.status = NodeStatus.skipped then nd
        else { type := nd.type, deps := nd.deps, status := NodeStatus.pending,
               input := nd.input, state := nd.state })) := by
  constructor
  · intro data
    induction data with
    | nil => rfl
    | cons kv rest ih =>
      show resetEntry (resetEntry kv) :: resetUncompletedNodes (resetUncompletedNodes rest)
          = resetEntry kv :: resetUncompletedNodes rest
      rw [resetEntry_idem kv, ih]
  · intro data n nd h
    have hmap : lookupStr n (resetUncompletedNodes data)
        = (lookupStr n data).map (fun v =>
            if v.status = NodeStatus.completed || v.status = NodeStatus.skipped then v
            else { type := v.type, deps := v.deps, status := NodeStatus.pending,
                   input := v.input, state := v.state }) := by
      unfold resetUncompletedNodes resetEntry
      exact lookupStr_map_entry
        (fun _ v => if v.status = NodeStatus.completed || v.status = NodeStatus.skipped
          then v
          else { type := v.type, deps := v.deps, status := NodeStatus.pending,
                 input := v.input, state := v.state }) n data
    rw [hmap, h]
    rfl

/-- Witness for C8's second conjunct at a concrete snapshot entry. -/
theorem c8_reset_idempotent_witness :
    lookupStr "a" (resetUncompletedNodes
      [("a", { type := NodeType.work, deps := ["z"], status := NodeStatus.errored,
               started := some 1, finished := some 2,
               input := some [Value.vnum 5], state := some (Value.vnum 0),
               error := some (Value.vstr "boom") })])
      = some { type := NodeType.work, deps := ["z"], status := NodeStatus.pending,
               input := some [Value.vnum 5], state := some (Value.vnum 0) } :=
  c8_reset_idempotent.2
    [("a", { type := NodeType.work, deps := ["z"], status := NodeStatus.errored,
             started := some 1, finished := some 2,
             input := some [Value.vnum 5], state := some (Value.vnum 0),
             error := some (Value.vstr "boom") })]
    "a"
    { type := NodeType.work, deps := ["z"], status := NodeStatus.errored,
      started := some 1, finished := some 2,
      input := some [Value.vnum 5], state := some (Value.vnum 0),
      error := some (Value.vstr "boom") } rfl

/-- C10: on the object heap, `getResumeSnapshot` leaves the argument snapshot
object — and with it every one of its fields and per-node data entries —
untouched: the object at `r` is unchanged, every reference other than the
result is unchanged, and the returned reference is a fresh object (unallocated
before the call and distinct from `r`) holding the transformed snapshot. -/
theorem c10_getResumeSnapshot_fresh (now : Nat) (h : Heap) (r r2 : Nat) (h2 : Heap)
    (hres : getResumeSnapshotHeap now h r = some (h2, r2)) :
    lookupRef r h2 = lookupRef r h ∧
    (∀ q, ¬ q = r2 → lookupRef q h2 = lookupRef q h) ∧
    ¬ r2 = r ∧
    lookupRef r2 h = none ∧
    (∃ s, lookupRef r h = some s ∧
      lookupRef r2 h2 = some (getResumeSnapshot now s)) := by
  unfold getResumeSnapshotHeap at hres
  cases hl : lookupRef r h with
  | none => rw [hl] at hres; cases hres
  | some s =>
    rw [hl] at hres
    injection hres with hres
    rw [Prod.mk.injEq] at hres
    obtain ⟨hh, hr⟩ := hres
    subst hh
    subst hr
    have hfr : lookupRef (freshRef h) h = none := lookupRef_fresh h
    have hfrne : ¬ freshRef h = r := by
      intro he
      rw [he, hl] at hfr
      cases hfr
    refine ⟨?_, ?_, hfrne, hfr, ⟨s, rfl, ?_⟩⟩
    · rw [lookupRef_cons, if_neg hfrne]
      exact hl
    · intro q hq
      rw [lookupRef_cons, if_neg (fun he => hq he.symm)]
    · rw [lookupRef_cons, if_pos rfl]

/-- Witness for C10 at a concrete one-object heap. -/
theorem c10_getResumeSnapshot_fresh_witness :
    lookupRef 6
      [(5, ({ status := NodeStatus.errored, started := 3, finished := some 4,
              data := [] } : Snapshot))] = none :=
  (c10_getResumeSnapshot_fresh 7
    [(5, { status := NodeStatus.errored, started := 3, finished := some 4, data := [] })]
    5 6
    ((6, getResumeSnapshot 7
        { status := NodeStatus.errored, started := 3, finished := some 4, data := [] })
      :: [(5, { status := NodeStatus.errored, started := 3, finished := some 4,
                data := [] })])
    rfl).2.2.2.1

/-- C2: at finalization (`finalize` runs exactly when no node is ready and no
promise is in flight) the terminal status is `errored` if any node errored,
else `suspended` if any node is suspended, else `completed`; and every node
still `pending` is set to `suspended` when the terminal status is `suspended`,
to `skipped` when it is `completed`, and left `pending` when it is `errored`. -/
theorem c2_finalize_terminal (st : RunState) (hnd : (keysOf st.snap.data).Nodup) :
    ((finalize st).snap.status = NodeStatus.errored ↔
      ∃ n nd, lookupStr n st.snap.data = some nd ∧ nd.status = NodeStatus.errored) ∧
    ((finalize st).snap.status = NodeStatus.suspended ↔
      (¬ ∃ n nd, lookupStr n st.snap.data = some nd ∧ nd.status = NodeStatus.errored) ∧
      ∃ n nd, lookupStr n st.snap.data = some nd ∧ nd.status = NodeStatus.suspended) ∧
    ((finalize st).snap.status = NodeStatus.completed ↔
      (¬ ∃ n nd, lookupStr n st.snap.data = some nd ∧ nd.status = NodeStatus.errored) ∧
      ¬ ∃ n nd, lookupStr n st.snap.data = some nd ∧ nd.status = NodeStatus.suspended) ∧
    (∀ n nd, lookupStr n st.snap.data = some nd → nd.status = NodeStatus.pending →
      ∃ nd2, lookupStr n (finalize st).snap.data = some nd2 ∧
        nd2.status = (if (finalize st).snap.status = NodeStatus.suspended
                      then NodeStatus.suspended
                      else if (finalize st).snap.status = NodeStatus.completed
                      then NodeStatus.skipped
                      else NodeStatus.pending)) := by
  obtain ⟨h1, h2, h3, h4, _⟩ := finalize_facts st hnd
  refine ⟨h1, h2, h3, ?_⟩
  intro n nd h hp
  have h5 := h4 n nd h
  rw [if_pos hp] at h5
  refine ⟨_, h5, ?_⟩
  split_ifs with hA hB
  · rfl
  · rfl
  · exact hp

/-- Witness for C2 at a concrete snapshot with one errored and one pending node. -/
theorem c2_finalize_terminal_witness :
    ((finalize errSampleSt).snap.status = NodeStatus.errored) ∧
    (∃ nd2, lookupStr "b" (finalize errSampleSt).snap.data = some nd2 ∧
      nd2.status = NodeStatus.pending) := by
  have H := c2_finalize_terminal errSampleSt (by decide)
  have hE := H.1.mpr ⟨"a", _, rfl, rfl⟩
  refine ⟨hE, ?_⟩
  obtain ⟨nd2, hl, hs⟩ := H.2.2.2 "b" _ rfl rfl
  refine ⟨nd2, hl, ?_⟩
  rw [hs, hE]
  rfl

/-- C7: when a node's `input` is not already cached in the snapshot, its
materialized input is the walk over its declared deps in order — one `output`
element per work dep, and the spread elements of the dep's own `input` for a
branching/suspension dep; and in a fresh snapshot a node with no deps gets
`input = [data]` when an initial `data` value was supplied to the run, and the
empty sequence otherwise. -/
theorem c7_input_materialization :
    (∀ (dag : DAG) (data : SnapshotData) (node : String) (dn : DagNode),
      lookupStr node dag = some dn →
      (lookupStr node data).bind (fun nd => nd.input) = none →
      (∀ d ∈ dn.deps, ∃ dd, lookupStr d dag = some dd) →
      getInputData dag node data
        = some ((dn.deps.map (depContribution dag data)).flatten)) ∧
    (∀ (dag : DAG) (node : String) (dn : DagNode) (v : Value),
      lookupStr node dag = some dn → dn.deps = [] →
      getInputData dag node (initSnapshotData dag (some v)) = some [v] ∧
      getInputData dag node (initSnapshotData dag Option.none) = some []) := by
  constructor
  · intro dag data node dn hdn hinp hdeps
    simp only [getInputData, hinp, hdn]
    exact depsInput_join dag data dn.deps hdeps
  · intro dag node dn v hdn hnil
    have hmem : node ∈ getNodesWithNoDeps dag := by
      refine List.mem_map.mpr ⟨(node, dn), List.mem_filter.mpr
        ⟨lookupStr_some_mem hdn, ?_⟩, rfl⟩
      rw [hnil]
      rfl
    have hcont : (getNodesWithNoDeps dag).contains node = true := List.elem_iff.mpr hmem
    constructor
    · have hl := initSnapshotData_lookup dag (some v) node
      rw [hdn] at hl
      simp only [Option.map_some'] at hl
      simp only [getInputData, hl, Option.isSome_some, hcont, Bool.and_self,
        if_pos, Option.some_bind]
      rfl
    · have hl := initSnapshotData_lookup dag Option.none node
      rw [hdn] at hl
      simp only [Option.map_some'] at hl
      simp only [getInputData, hl, Option.isSome_none, Bool.false_and,
        Bool.false_eq_true, if_false, Option.some_bind, hdn, hnil]
      rfl

/-- Witness for C7: a work dep contributes its output, a suspension dep
spreads its own input. -/
theorem c7_input_materialization_witness :
    getInputData
      [("a", { deps := [], type := NodeType.work }),
       ("s", { deps := ["a"], type := NodeType.suspension }),
       ("b", { deps := ["a", "s"], type := NodeType.work })]
      "b"
      [("a", { type := NodeType.work, deps := [], status := NodeStatus.completed,
               output := some (Value.vnum 7) }),
       ("s", { type := NodeType.suspension, deps := ["a"],
               status := NodeStatus.completed, input := some [Value.vnum 7] }),
       ("b", { type := NodeType.work, deps := ["a", "s"],
               status := NodeStatus.pending })]
      = some [Value.vnum 7, Value.vnum 7] :=
  Eq.trans
    (c7_input_materialization.1
      [("a", { deps := [], type := NodeType.work }),
       ("s", { deps := ["a"], type := NodeType.suspension }),
       ("b", { deps := ["a", "s"], type := NodeType.work })]
      [("a", { type := NodeType.work, deps := [], status := NodeStatus.completed,
               output := some (Value.vnum 7) }),
       ("s", { type := NodeType.suspension, deps := ["a"],
               status := NodeStatus.completed, input := some [Value.vnum 7] }),
       ("b", { type := NodeType.work, deps := ["a", "s"],
               status := NodeStatus.pending })]
      "b" { deps := ["a", "s"], type := NodeType.work } rfl rfl
      (by
        intro d hd
        rcases mem_pair hd with rfl | rfl
        · exact ⟨_, rfl⟩
        · exact ⟨_, rfl⟩))
    rfl

/-- C9: after `stop()` has aborted a run, the readiness computation of every
subsequent loop iteration returns the empty set regardless of the snapshot
data (first conjunct), so the loop immediately finalizes (second conjunct) and
never dispatches a new node — no new `running` transition is ever recorded
(third conjunct). -/
theorem c9_stop_no_dispatch :
    (∀ (dag : DAG) (data : SnapshotData), readyNodes true dag data = []) ∧
    (∀ (spec : Spec) (dag : DAG) (fuel : Nat) (st : RunState),
      loopModel spec dag true (fuel + 1) st = finalize st) ∧
    (∀ (spec : Spec) (dag : DAG) (fuel : Nat) (st : RunState) (n : String) (o : NodeStatus),
      (n, o, NodeStatus.running) ∈ (loopModel spec dag true fuel st).trace →
      (n, o, NodeStatus.running) ∈ st.trace) := by
  refine ⟨fun _ _ => rfl, fun spec dag fuel st => loopModel_true_succ spec dag fuel st, ?_⟩
  intro spec dag fuel st n o hmem
  cases fuel with
  | zero => simpa [loopModel] using hmem
  | succ fuel =>
    rw [loopModel_true_succ] at hmem
    obtain ⟨delta, hd1, hd2⟩ := finalize_trace_status st
    rw [hd1] at hmem
    rcases List.mem_append.mp hmem with hmem | hmem
    · exact hmem
    · rcases hd2 _ hmem with hx | hx <;> cases hx

/-- Witness for C9's third conjunct at a concrete aborted run. -/
theorem c9_stop_no_dispatch_witness :
    ("a", NodeStatus.pending, NodeStatus.running) ∈
      ({ snap := { status := NodeStatus.running, started := 0, finished := none, data := [] },
         trace := [("a", NodeStatus.pending, NodeStatus.running)],
         events := [] } : RunState).trace :=
  c9_stop_no_dispatch.2.2 [] [] 1
    { snap := { status := NodeStatus.running, started := 0, finished := none, data := [] },
      trace := [("a", NodeStatus.pending, NodeStatus.running)], events := [] }
    "a" NodeStatus.pending (by decide)

/-- C3 counterexample: in the run of `throwSpec` the node `w` throws
`new Error('boom')` (message `boom`, stack `Error: boom`); the engine records
`{...error, stack: error.stack}`, and since `message` is a non-enumerable own
property of `Error` instances the spread copies nothing — the recorded record
is `{stack: 'Error: boom'}` with **no** `message` field, refuting the claim
that the recorded error contains at least the exception's message. -/
theorem c3_counterexample :
    runTopologyModel throwSpec Option.none false 2 = some throwRun ∧
    (lookupStr "w" throwRun.snap.data).bind (fun nd => nd.error)
      = some (Value.vobj [("stack", Value.vstr "Error: boom")]) ∧
    objGet "message" [("stack", Value.vstr "Error: boom")] = none :=
  ⟨rfl, rfl, rfl⟩

/-- C3 amended: for every node whose action throws an `Error` value `e`, the
recorded error field is the structured record `{...e, stack: e.stack}`: it
contains `e`'s stack string and preserves every enumerable field attached to
the exception (any key other than the overridden `stack`), but no `message`
field is copied, because `message` (like `stack`) is a non-enumerable own
property of `Error` instances and object spread skips it. -/
theorem c3_error_capture (spec : Spec) (dag : DAG) (n : String) (st : RunState)
    (deps0 : List String) (runf : List Value → Except JSError Value) (e : JSError)
    (nd0 : NodeData)
    (hspec : lookupStr n spec = some { deps := deps0, action := NodeAction.work runf })
    (hrun : runf ((getInputData dag n st.snap.data).getD []) = Except.error e)
    (hn : lookupStr n st.snap.data = some nd0) :
    (∃ nd1, lookupStr n (runNode spec dag n st).snap.data = some nd1 ∧
      nd1.error = some (capturedError e)) ∧
    capturedError e = Value.vobj (e.extra ++ [("stack", Value.vstr e.stack)]) ∧
    objGet "stack" (e.extra ++ [("stack", Value.vstr e.stack)])
      = some (Value.vstr e.stack) ∧
    (∀ k w, objGet k e.extra = some w → ¬ k = "stack" →
      objGet k (e.extra ++ [("stack", Value.vstr e.stack)]) = some w) := by
  refine ⟨?_, rfl, ?_, ?_⟩
  · simp only [runNode, hspec, hrun]
    have h1 : lookupStr n (writeNode n (erroredFn (capturedError e))
        (writeNode n (runningFn ((getInputData dag n st.snap.data).getD [])) st)).snap.data
        = some (erroredFn (capturedError e)
            (runningFn ((getInputData dag n st.snap.data).getD []) nd0)) := by
      rw [doubleWrite_lookup, if_pos rfl, hn]
      rfl
    exact ⟨_, h1, rfl⟩
  · unfold objGet
    rw [List.reverse_append]
    simp
  · intro k w hk hkne
    unfold objGet at hk ⊢
    rw [List.reverse_append]
    have hne : ((("stack", Value.vstr e.stack) : String × Value).1 == k) = false :=
      beq_eq_false_iff_ne.mpr (fun h2 => hkne h2.symm)
    show (List.find? (fun kv => kv.1 == k)
      (("stack", Value.vstr e.stack) :: e.extra.reverse)).map Prod.snd = some w
    rw [List.find?_cons_of_neg _ (by rw [hne]; intro hc; cases hc)]
    exact hk

/-- Witness for C3 amended: an enumerable attached field (`code`) survives the
capture. -/
theorem c3_error_capture_witness :
    objGet "code" ([("code", Value.vnum 42)] ++ [("stack", Value.vstr "Error: boom")])
      = some (Value.vnum 42) :=
  (c3_error_capture
    [("w", { deps := [],
             action := NodeAction.work (fun _ => Except.error
               { message := "boom", stack := "Error: boom",
                 extra := [("code", Value.vnum 42)] }) })]
    [("w", { deps := [], type := NodeType.work })]
    "w"
    { snap := { status := NodeStatus.running, started := 0, finished := none,
                data := [("w", { type := NodeType.work, deps := [],
                                 status := NodeStatus.pending })] },
      trace := [], events := [] }
    []
    (fun _ => Except.error
      { message := "boom", stack := "Error: boom", extra := [("code", Value.vnum 42)] })
    { message := "boom", stack := "Error: boom", extra := [("code", Value.vnum 42)] }
    { type := NodeType.work, deps := [], status := NodeStatus.pending }
    rfl rfl rfl).2.2.2 "code" (Value.vnum 42) rfl (by decide)

/-- C4 counterexample: in the run of `badBranchSpec` the branching node `b`
selects the non-dependent name `nope`; the engine records `branched`
(status `completed`) *before* the `Branch not found` check, whose failure then
lands in `.catch(events.errored)` — so the trace contains the transition
`completed → errored`, which the monotone state machine claimed by the spec
forbids. -/
theorem c4_counterexample :
    runTopologyModel badBranchSpec Option.none false 3 = some badBranchRun ∧
    ("b", NodeStatus.completed, NodeStatus.errored) ∈ badBranchRun.trace ∧
    monotoneStep NodeStatus.completed NodeStatus.errored = false :=
  ⟨rfl, by decide, rfl⟩

/-- C4 amended: over the lifetime of a fresh run's snapshot every status write
lies in `allowedStep`: the monotone machine of the spec plus (i)
`completed → errored` for a branching node whose selector named a
non-dependent, and (ii) re-marks among `suspended`/`skipped` on direct
dependents that several branching/suspension nodes mark in turn.
`pending → running` occurs only at dispatch of a pending node; it can repeat
only across a resume, which first resets uncompleted nodes to `pending`. -/
theorem c4_allowed_transitions (spec : Spec) (d? : Option Value) (fuel : Nat)
    (st1 : RunState) (hnodup : (keysOf spec).Nodup)
    (hrun : runTopologyModel spec d? false fuel = some st1) :
    ∀ n o s2, (n, o, s2) ∈ st1.trace → allowedStep o s2 = true := by
  simp only [runTopologyModel, runTopologyInternal] at hrun
  by_cases hmiss : getMissingSpecNodes spec (extractDag spec) = []
  · rw [if_pos hmiss] at hrun
    injection hrun with hrun
    have hdag : (keysOf (extractDag spec)).Nodup := by
      rw [extractDag_keys]
      exact hnodup
    obtain ⟨delta, hd1, hd2⟩ := loop_allowed spec (extractDag spec) hdag hmiss fuel
      { snap := { status := NodeStatus.running, started := 0, finished := none,
                  data := initSnapshotData (extractDag spec) d? },
        trace := [], events := [EvKind.data] }
      (init_loopInv (extractDag spec) d?)
    intro n o s2 hmem
    rw [← hrun] at hmem
    rw [hd1] at hmem
    exact hd2 _ (by simpa using hmem)
  · rw [if_neg hmiss] at hrun
    cases hrun

/-- Witness for C4 amended at the concrete run of `badBranchSpec`. -/
theorem c4_allowed_transitions_witness :
    allowedStep NodeStatus.pending NodeStatus.running = true :=
  c4_allowed_transitions badBranchSpec Option.none 3 badBranchRun (by decide) rfl
    "b" NodeStatus.pending NodeStatus.running (by decide)

/-- C5: a branching node whose selector returns `branch(name)` for a `name`
that is not a declared dependent (no node whose `deps` include the branching
node is named `name`) ends the run with status `errored`, and its recorded
error is the captured `Branch not found: name` `TopologyError`.  The
hypothesis `(n, o, running) ∈ trace` states that the branching node was
actually dispatched (so its selector ran). -/
theorem c5_branch_not_found (spec : Spec) (d? : Option Value) (fuel : Nat)
    (st1 : RunState) (n name : String) (sn : SpecNode)
    (runf : List Value → Except JSError BranchSel) (o : NodeStatus)
    (hnodup : (keysOf spec).Nodup)
    (hrun : runTopologyModel spec d? false fuel = some st1)
    (hsn : lookupStr n spec = some sn)
    (hact : sn.action = NodeAction.branching runf)
    (hconst : ∀ input, ∃ rr, runf input = Except.ok (BranchSel.branch name rr))
    (hnodep : ∀ X sX, lookupStr X spec = some sX → n ∈ sX.deps → ¬ X = name)
    (hdisp : (n, o, NodeStatus.running) ∈ st1.trace) :
    ∃ nd1, lookupStr n st1.snap.data = some nd1 ∧
      nd1.status = NodeStatus.errored ∧
      nd1.error = some (capturedError (topologyError ("Branch not found: " ++ name))) := by
  simp only [runTopologyModel, runTopologyInternal] at hrun
  by_cases hmiss : getMissingSpecNodes spec (extractDag spec) = []
  · rw [if_pos hmiss] at hrun
    injection hrun with hrun
    have hdag : (keysOf (extractDag spec)).Nodup := by
      rw [extractDag_keys]
      exact hnodup
    have hnotdep : name ∉ getDependents n (extractDag spec) := by
      intro hmem
      obtain ⟨dnm, hmemd, hin⟩ := mem_getDependents.mp hmem
      have hld : lookupStr name (extractDag spec) = some dnm :=
        lookupStr_of_mem_nodup hdag hmemd
      rw [extractDag_lookup] at hld
      cases hsx : lookupStr name spec with
      | none => rw [hsx] at hld; cases hld
      | some sX =>
        rw [hsx] at hld
        injection hld with hld
        have hdeps : n ∈ sX.deps := by
          rw [← hld] at hin
          exact hin
        exact hnodep name sX hsx hdeps rfl
    subst hrun
    rcases loop_bad_branch spec (extractDag spec) hdag hmiss fuel
      { snap := { status := NodeStatus.running, started := 0, finished := none,
                  data := initSnapshotData (extractDag spec) d? },
        trace := [], events := [EvKind.data] }
      n sn runf name o (init_loopInv (extractDag spec) d?) hsn hact hconst hnotdep hdisp
      with hmem | hres
    · cases hmem
    · exact hres
  · rw [if_neg hmiss] at hrun
    cases hrun

/-- Witness for C5 at the concrete run of `badBranchSpec`. -/
theorem c5_branch_not_found_witness :
    ∃ nd1, lookupStr "b" badBranchRun.snap.data = some nd1 ∧
      nd1.status = NodeStatus.errored ∧
      nd1.error = some (capturedError (topologyError ("Branch not found: " ++ "nope"))) :=
  c5_branch_not_found badBranchSpec Option.none 3 badBranchRun "b" "nope"
    { deps := [],
      action := NodeAction.branching
        (fun _ => Except.ok (BranchSel.branch "nope" (some "why"))) }
    (fun _ => Except.ok (BranchSel.branch "nope" (some "why")))
    NodeStatus.pending (by decide) rfl rfl rfl
    (fun _ => ⟨some "why", rfl⟩)
    (by
      intro X sX hl hdep
      have hX2 : X ∈ ["b", "x"] := mem_keys_of_lookupStr hl
      rcases mem_pair hX2 with rfl | rfl
      · decide
      · decide)
    (by decide)

end TopologyRunner
